import Mathlib

/-!
Shallow embedding of the DriveThing Convex backend (src/convex/files.ts,
src/convex/folders.ts, schema in src/convex/schema snapshots) and proofs
about the claims of the natural-language specification.

Conventions of the embedding:
* the Convex database is a `Store`: three lists of records (users, folders,
  files); `ctx.db.get` is `List.find?` on the record id, the indexed queries
  `withIndex(...)` are list filters on the indexed field;
* document ids are natural numbers; `ctx.db.insert` appends a record whose
  id is one greater than the maximum id present (Convex generates a fresh
  unique id; any injective generator gives the same theorems);
* a Convex mutation either throws (`Except.error msg`, with the source's
  message) or commits; a thrown mutation performs no write, which the
  embedding reflects by returning the new store only in the `Except.ok`
  case;
* `Date.now()` is passed in as an explicit `now : Nat` argument;
* the final `.sort((a, b) => a.name.localeCompare(b.name))` of the queries
  is embedded as a stable insertion sort on the name strings; all claims
  about query results are membership claims, which `mem_sortByName` makes
  insensitive to the comparator's details;
* the unbounded `while` loops of `moveFolder` and `getFolderPath` are
  embedded with explicit fuel; a completed run of either loop visits
  pairwise-distinct folders, hence finishes within `folders.length + 1`
  iterations, so fuel `folders.length + 1` is exact: the fuel-out answer
  `none` occurs precisely when the source loop would run forever.
-/

abbrev UserId : Type := Nat
abbrev FolderId : Type := Nat
abbrev FileId : Type := Nat
abbrev FamilyId : Type := Nat
abbrev ClerkId : Type := String

inductive Role where
  | owner
  | member
deriving DecidableEq, Repr

/-- Schema `users`: the fields the backend logic reads. -/
structure User where
  _id : UserId
  clerkId : ClerkId
  email : String
  name : String
  familyId : Option FamilyId
  role : Option Role
deriving DecidableEq, Repr

/-- Schema `folders`.  `assignedTo` is an array of user ids in the live
schema (folders.ts creates and reads it with array operations), stored as
`none` rather than an empty array by `createFolder`/`updateFolderAssignment`. -/
structure Folder where
  _id : FolderId
  name : String
  parentFolderId : Option FolderId
  createdBy : UserId
  assignedTo : Option (List UserId)
  familyId : FamilyId
  sharedWithFamily : Bool
  sharedWith : Option (List UserId)
  createdAt : Nat
deriving DecidableEq, Repr

/-- Schema `files`. -/
structure File where
  _id : FileId
  name : String
  originalName : String
  url : String
  fileKey : String
  type : String
  size : Nat
  uploadedBy : UserId
  assignedTo : Option UserId
  familyId : FamilyId
  folderId : Option FolderId
  tags : Option (List String)
  sharedWithFamily : Bool
  sharedWith : Option (List UserId)
  createdAt : Nat
deriving DecidableEq, Repr

/-- The Convex database state seen by the backend functions. -/
structure Store where
  users : List User
  folders : List Folder
  files : List File
deriving DecidableEq, Repr

/-! ### Store primitives -/

/-- Embeds `ctx.db.get` on the users table. -/
def dbGetUser (s : Store) (uid : UserId) : Option User :=
  s.users.find? (fun u => u._id == uid)

/-- Embeds `ctx.db.get` on the folders table. -/
def dbGetFolder (s : Store) (fid : FolderId) : Option Folder :=
  s.folders.find? (fun g => g._id == fid)

/-- Embeds `ctx.db.get` on the files table. -/
def dbGetFile (s : Store) (fid : FileId) : Option File :=
  s.files.find? (fun f => f._id == fid)

/-- Embeds `ctx.db.query("users").withIndex("by_clerk_id", ...).unique()`:
`unique()` returns the sole match, `null` when there is none, and throws on
several matches; every caller immediately throws on `null`, so the embedding
folds the several-matches throw into `none` as well. -/
def findUserByClerk (s : Store) (c : ClerkId) : Option User :=
  match s.users.filter (fun u => u.clerkId == c) with
  | [u] => some u
  | _ => none

/-- Embeds `query("files").withIndex("by_folder", q.eq("folderId", fid))`. -/
def filesByFolder (s : Store) (fid : FolderId) : List File :=
  s.files.filter (fun f => f.folderId == some fid)

/-- Embeds `query("folders").withIndex("by_parent", q.eq("parentFolderId", p))`. -/
def foldersByParent (s : Store) (p : Option FolderId) : List Folder :=
  s.folders.filter (fun g => g.parentFolderId == p)

/-- Embeds `query("files").withIndex("by_family", q.eq("familyId", famId))`. -/
def filesByFamily (s : Store) (famId : FamilyId) : List File :=
  s.files.filter (fun f => f.familyId == famId)

/-- Embeds `query("folders").withIndex("by_family", q.eq("familyId", famId))`. -/
def foldersByFamily (s : Store) (famId : FamilyId) : List Folder :=
  s.folders.filter (fun g => g.familyId == famId)

/-- Embeds `ctx.db.patch(fileId, ...)`: rewrites the record with that id. -/
def patchFileRow (s : Store) (fid : FileId) (upd : File → File) : Store :=
  { s with files := s.files.map (fun f => if f._id = fid then upd f else f) }

/-- Embeds `ctx.db.patch(folderId, ...)`. -/
def patchFolderRow (s : Store) (fid : FolderId) (upd : Folder → Folder) : Store :=
  { s with folders := s.folders.map (fun g => if g._id = fid then upd g else g) }

/-- Embeds `ctx.db.delete(fileId)`. -/
def deleteFileRow (s : Store) (fid : FileId) : Store :=
  { s with files := s.files.filter (fun f => ¬ f._id = fid) }

/-- Embeds `ctx.db.delete(folderId)`. -/
def deleteFolderRow (s : Store) (fid : FolderId) : Store :=
  { s with folders := s.folders.filter (fun g => ¬ g._id = fid) }

/-- Fresh id for `ctx.db.insert` into `folders`. -/
def freshFolderId (s : Store) : FolderId :=
  (s.folders.map (fun g => g._id)).foldr max 0 + 1

/-- Fresh id for `ctx.db.insert` into `files`. -/
def freshFileId (s : Store) : FileId :=
  (s.files.map (fun f => f._id)).foldr max 0 + 1

/-! ### The name sort at the end of every query -/

/-- Stable insertion of one element into a list sorted by `key`. -/
def insertByName (key : α → String) (x : α) : List α → List α
  | [] => [x]
  | y :: ys => if key x ≤ key y then x :: y :: ys else y :: insertByName key x ys

/-- Embeds `.sort((a, b) => a.name.localeCompare(b.name))` (a stable sort
by the name string). -/
def sortByName (key : α → String) : List α → List α
  | [] => []
  | x :: xs => insertByName key x (sortByName key xs)

theorem mem_insertByName (key : α → String) (x a : α) (l : List α) :
    a ∈ insertByName key x l ↔ a = x ∨ a ∈ l := by
  induction l with
  | nil => simp [insertByName]
  | cons y ys ih =>
      by_cases h : key x ≤ key y
      · simp [insertByName, h]
      · simp only [insertByName, if_neg h, List.mem_cons, ih]
        tauto

theorem mem_sortByName (key : α → String) (a : α) (l : List α) :
    a ∈ sortByName key l ↔ a ∈ l := by
  induction l with
  | nil => simp [sortByName]
  | cons x xs ih => simp [sortByName, mem_insertByName, ih]

/-! ### Query helpers shared with the source's enrichment steps -/

/-- Resolves a single optional assignee to a display name
(`assigneeName` in files.ts). -/
def assigneeNameOf (s : Store) (assignedTo : Option UserId) : Option String :=
  assignedTo.bind (fun a => (dbGetUser s a).map (fun u => u.name))

/-- Resolves a folder's assignee array to display names (`assigneeNames` in
folders.ts: look each id up, drop misses, keep the names). -/
def assigneeNamesOf (s : Store) (assignedTo : Option (List UserId)) : List String :=
  match assignedTo with
  | none => []
  | some l =>
      if l.length > 0 then l.filterMap (fun uid => (dbGetUser s uid).map (fun u => u.name))
      else []

/-- Direct item count of a folder (`filesInFolder.length + subfoldersInFolder.length`). -/
def folderItemCount (s : Store) (fid : FolderId) : Nat :=
  (filesByFolder s fid).length + (foldersByParent s (some fid)).length

/-- Scope filter shared verbatim by `getMyFiles` and `getSharedFiles`:
specific folder (then restrict to the caller's family), root only, or the
whole family. -/
def familyFilesInScope (s : Store) (familyId : FamilyId) (folderId : Option FolderId)
    (rootOnly : Option Bool) : List File :=
  match folderId with
  | some fid => (filesByFolder s fid).filter (fun f => f.familyId == familyId)
  | none =>
      if rootOnly.getD false then
        (filesByFamily s familyId).filter (fun f => f.folderId == none)
      else
        filesByFamily s familyId

/-- Result row of `getMyFiles`: the file enriched with the assignee name. -/
structure FileWithAssignee where
  file : File
  assigneeName : Option String
deriving DecidableEq, Repr

/-- Embeds `getMyFiles` (files.ts): owners see the files they uploaded,
everyone else the files assigned to them plus the unassigned ones, within
the requested scope, enriched and name-sorted. -/
def getMyFiles (s : Store) (c : ClerkId) (folderId : Option FolderId)
    (rootOnly : Option Bool) : List FileWithAssignee :=
  match findUserByClerk s c with
  | none => []
  | some user =>
      match user.familyId with
      | none => []
      | some familyId =>
          let allFamilyFiles := familyFilesInScope s familyId folderId rootOnly
          let myFiles :=
            if user.role = some Role.owner then
              allFamilyFiles.filter (fun f => f.uploadedBy == user._id)
            else
              allFamilyFiles.filter (fun f => f.assignedTo == some user._id || f.assignedTo == none)
          sortByName (fun r => r.file.name)
            (myFiles.map (fun f => ⟨f, assigneeNameOf s f.assignedTo⟩))

/-- In the source (files.ts, `getSharedFiles`) the folder filter contains
`folder.assignedTo === user._id`.  A folder's `assignedTo` is an array of
user ids (or `undefined`), so this JavaScript strict equality compares an
array or `undefined` against an id string and is false on every input. -/
def folderAssignedToStrictEq (_assignedTo : Option (List UserId)) (_uid : UserId) : Bool :=
  false

/-- The ids collected into `sharedFolderIds` in `getSharedFiles`: family
folders that are not created by the caller, not `assignedTo === user._id`
(see `folderAssignedToStrictEq`), have a non-`undefined` assignee array, and
are shared with the family or with the caller. -/
def sharedFolderIdList (s : Store) (user : User) (familyId : FamilyId) : List FolderId :=
  ((foldersByFamily s familyId).filter (fun folder =>
      if folder.createdBy == user._id then false
      else if folderAssignedToStrictEq folder.assignedTo user._id then false
      else if folder.assignedTo == none then false
      else folder.sharedWithFamily || (folder.sharedWith.getD []).contains user._id)).map
    (fun g => g._id)

/-- The per-file visibility test of `getSharedFiles`: unassigned files,
files assigned to the caller and files uploaded by the caller are excluded;
the rest is included when the file itself is shared or when it sits in a
folder of `sharedFolderIds`. -/
def sharedFileVisible (user : User) (sharedIds : List FolderId) (file : File) : Bool :=
  if file.assignedTo == none then false
  else if file.assignedTo == some user._id then false
  else if file.uploadedBy == user._id then false
  else if file.sharedWithFamily then true
  else if (file.sharedWith.getD []).contains user._id then true
  else
    match file.folderId with
    | some d => sharedIds.contains d
    | none => false

/-- Result row of `getSharedFiles`: the file with uploader and assignee names. -/
structure SharedFileInfo where
  file : File
  uploaderName : String
  assigneeName : Option String
deriving DecidableEq, Repr

/-- Embeds `getSharedFiles` (files.ts). -/
def getSharedFiles (s : Store) (c : ClerkId) (folderId : Option FolderId)
    (rootOnly : Option Bool) : List SharedFileInfo :=
  match findUserByClerk s c with
  | none => []
  | some user =>
      match user.familyId with
      | none => []
      | some familyId =>
          let allFamilyFiles := familyFilesInScope s familyId folderId rootOnly
          let sharedIds := sharedFolderIdList s user familyId
          let visibleFiles := allFamilyFiles.filter (sharedFileVisible user sharedIds)
          sortByName (fun r => r.file.name)
            (visibleFiles.map (fun f =>
              ⟨f, ((dbGetUser s f.uploadedBy).map (fun u => u.name)).getD "Unknown",
                assigneeNameOf s f.assignedTo⟩))

/-- Result row of `getSharedFolders`. -/
structure SharedFolderInfo where
  folder : Folder
  assigneeNames : List String
  creatorName : String
  itemCount : Nat
deriving DecidableEq, Repr

/-- The filter of `getSharedFolders` (folders.ts): same family, not created
by the caller, not assigned to the caller, not unassigned, and shared with
the family or with the caller. -/
def sharedFolderVisible (user : User) (familyId : FamilyId) (folder : Folder) : Bool :=
  if ¬ folder.familyId == familyId then false
  else if folder.createdBy == user._id then false
  else if (folder.assignedTo.getD []).contains user._id then false
  else if folder.assignedTo == none || folder.assignedTo == some [] then false
  else if folder.sharedWithFamily then true
  else if (folder.sharedWith.getD []).contains user._id then true
  else false

/-- Embeds `getSharedFolders` (folders.ts), scoped to one parent-folder
value (root when the scope is `none`). -/
def getSharedFolders (s : Store) (c : ClerkId) (parentFolderId : Option FolderId) :
    List SharedFolderInfo :=
  match findUserByClerk s c with
  | none => []
  | some user =>
      match user.familyId with
      | none => []
      | some familyId =>
          let allFolders := foldersByParent s parentFolderId
          let sharedFolders := allFolders.filter (sharedFolderVisible user familyId)
          sortByName (fun r => r.folder.name)
            (sharedFolders.map (fun folder =>
              ⟨folder, assigneeNamesOf s folder.assignedTo,
                ((dbGetUser s folder.createdBy).map (fun u => u.name)).getD "Unknown",
                folderItemCount s folder._id⟩))

/-! ### Mutations -/

/-- Embeds the normalization
`args.assignedTo && args.assignedTo.length > 0 ? args.assignedTo : undefined`
of `createFolder` (folders.ts): only non-empty assignee arrays are stored. -/
def normalizeAssigned (assignedTo : Option (List UserId)) : Option (List UserId) :=
  match assignedTo with
  | some l => if l.length > 0 then some l else none
  | none => none

/-- Embeds `createFolder` (folders.ts).  Returns the new store and the id
`ctx.db.insert` hands back. -/
def createFolder (s : Store) (c : ClerkId) (name : String)
    (parentFolderId : Option FolderId) (assignedTo : Option (List UserId))
    (now : Nat) : Except String (Store × FolderId) :=
  match findUserByClerk s c with
  | none => Except.error "User must be in a family to create folders"
  | some user =>
      match user.familyId with
      | none => Except.error "User must be in a family to create folders"
      | some familyId =>
          if ¬ user.role = some Role.owner then
            Except.error "Only family owners can create folders"
          else
            let parentOk : Bool :=
              match parentFolderId with
              | none => true
              | some pid =>
                  match dbGetFolder s pid with
                  | none => false
                  | some parent => parent.familyId == familyId
            if ¬ parentOk then Except.error "Parent folder not found"
            else
              let assigned := normalizeAssigned assignedTo
              let nid := freshFolderId s
              let rec1 : Folder :=
                { _id := nid, name := name, parentFolderId := parentFolderId,
                  createdBy := user._id, assignedTo := assigned, familyId := familyId,
                  sharedWithFamily := false, sharedWith := some [], createdAt := now }
              Except.ok ({ s with folders := s.folders ++ [rec1] }, nid)

/-- Embeds `createFile` (files.ts). -/
def createFile (s : Store) (c : ClerkId) (name originalName url fileKey ty : String)
    (size : Nat) (assignedTo : Option UserId) (tags : Option (List String))
    (folderId : Option FolderId) (now : Nat) : Except String (Store × FileId) :=
  match findUserByClerk s c with
  | none => Except.error "User must be in a family to upload files"
  | some user =>
      match user.familyId with
      | none => Except.error "User must be in a family to upload files"
      | some familyId =>
          if ¬ user.role = some Role.owner then
            Except.error "Only family owners can upload files"
          else
            let folderOk : Bool :=
              match folderId with
              | none => true
              | some fid =>
                  match dbGetFolder s fid with
                  | none => false
                  | some folder => folder.familyId == familyId
            if ¬ folderOk then Except.error "Folder not found"
            else
              let nid := freshFileId s
              let rec1 : File :=
                { _id := nid, name := name, originalName := originalName, url := url,
                  fileKey := fileKey, type := ty, size := size, uploadedBy := user._id,
                  assignedTo := assignedTo, familyId := familyId, folderId := folderId,
                  tags := some (tags.getD []), sharedWithFamily := false,
                  sharedWith := some [], createdAt := now }
              Except.ok ({ s with files := s.files ++ [rec1] }, nid)

/-- Embeds `renameFile` (files.ts): the only checks are that the caller
resolves and that the file exists and was uploaded by the caller; on success
the name is patched and the file key returned. -/
def renameFile (s : Store) (c : ClerkId) (fileId : FileId) (newName : String) :
    Except String (Store × String) :=
  match findUserByClerk s c with
  | none => Except.error "User not found"
  | some user =>
      match dbGetFile s fileId with
      | none => Except.error "File not found or not owned by user"
      | some file =>
          if ¬ file.uploadedBy = user._id then
            Except.error "File not found or not owned by user"
          else
            Except.ok (patchFileRow s fileId (fun f => { f with name := newName }),
              file.fileKey)

/-- Embeds `deleteFolder` (folders.ts).  With `deleteContents` the files of
the folder are deleted, then each direct subfolder has its files deleted and
is deleted itself (the loop does not descend further); without it, files and
direct subfolders are re-parented to the deleted folder's parent.  The
deleted file keys are accumulated in encounter order and returned. -/
def deleteFolder (s : Store) (c : ClerkId) (folderId : FolderId) (deleteContents : Bool) :
    Except String (Store × List String) :=
  match findUserByClerk s c with
  | none => Except.error "User not found"
  | some user =>
      match dbGetFolder s folderId with
      | none => Except.error "Folder not found"
      | some folder =>
          if ¬ (user.role = some Role.owner ∧ folder.createdBy = user._id) then
            Except.error "Not authorized to delete this folder"
          else
            let filesInFolder := filesByFolder s folderId
            let subfolders := foldersByParent s (some folderId)
            if deleteContents then
              let st1 : Store × List String := filesInFolder.foldl
                (fun acc file => (deleteFileRow acc.1 file._id, acc.2 ++ [file.fileKey]))
                (s, [])
              let st2 : Store × List String := subfolders.foldl
                (fun acc sub =>
                  let subfiles := filesByFolder acc.1 sub._id
                  let acc2 := subfiles.foldl
                    (fun a f => (deleteFileRow a.1 f._id, a.2 ++ [f.fileKey])) acc
                  (deleteFolderRow acc2.1 sub._id, acc2.2))
                st1
              Except.ok (deleteFolderRow st2.1 folderId, st2.2)
            else
              let s1 := filesInFolder.foldl
                (fun st file =>
                  patchFileRow st file._id (fun f => { f with folderId := folder.parentFolderId }))
                s
              let s2 := subfolders.foldl
                (fun st sub =>
                  patchFolderRow st sub._id
                    (fun g => { g with parentFolderId := folder.parentFolderId }))
                s1
              Except.ok (deleteFolderRow s2 folderId, [])

/-- One step of the ancestor chain: `ctx.db.get(cur)` then
`parentFolder?.parentFolderId` (a missing folder and a root folder both end
the chain, exactly as in the source). -/
def stepO (s : Store) : Option FolderId → Option FolderId
  | none => none
  | some fid => (dbGetFolder s fid).bind (fun g => g.parentFolderId)

/-- The `while (currentParent)` loop of `moveFolder`, with fuel: `some true`
means the moved folder's id was met (the source throws), `some false` means
the chain ended, `none` means the fuel ran out — which, at fuel
`folders.length + 1`, happens exactly when the source loop never ends. -/
def moveWalk (s : Store) (folderId : FolderId) : Nat → Option FolderId → Option Bool
  | _, none => some false
  | 0, some _ => none
  | n + 1, some cur =>
      if cur = folderId then some true
      else moveWalk s folderId n (stepO s (some cur))

/-- Embeds `moveFolder` (folders.ts).  The outer `Option` is `none` when the
cycle-check loop diverges (corrupted, cyclic data); otherwise the mutation
throws (`Except.error`, no write happens) or commits the single patch. -/
def moveFolder (s : Store) (c : ClerkId) (folderId : FolderId)
    (newParentFolderId : Option FolderId) : Option (Except String Store) :=
  match findUserByClerk s c with
  | none => some (Except.error "User not found")
  | some user =>
      match dbGetFolder s folderId with
      | none => some (Except.error "Folder not found")
      | some folder =>
          if ¬ (user.role = some Role.owner ∧ folder.createdBy = user._id) then
            some (Except.error "Not authorized to move this folder")
          else
            match newParentFolderId with
            | none =>
                some (Except.ok (patchFolderRow s folderId
                  (fun g => { g with parentFolderId := none })))
            | some np =>
                match moveWalk s folderId (s.folders.length + 1) (some np) with
                | none => none
                | some true =>
                    some (Except.error "Cannot move a folder into itself or its descendants")
                | some false =>
                    match dbGetFolder s np with
                    | none => some (Except.error "Target folder not found")
                    | some newParent =>
                        if ¬ newParent.familyId = folder.familyId then
                          some (Except.error "Target folder not found")
                        else
                          some (Except.ok (patchFolderRow s folderId
                            (fun g => { g with parentFolderId := some np })))

/-- Embeds `updateFileSharing` (files.ts): uploader or assignee may replace
both sharing fields; the `sharedWith` list is stored verbatim, unvalidated. -/
def updateFileSharing (s : Store) (c : ClerkId) (fileId : FileId)
    (shareWithFamily : Bool) (sharedWith : List UserId) : Except String Store :=
  match findUserByClerk s c with
  | none => Except.error "User not found"
  | some user =>
      match dbGetFile s fileId with
      | none => Except.error "File not found"
      | some file =>
          if file.uploadedBy = user._id ∨ file.assignedTo = some user._id then
            Except.ok (patchFileRow s fileId (fun f =>
              { f with sharedWithFamily := shareWithFamily, sharedWith := some sharedWith }))
          else
            Except.error "Not authorized to share this file"

/-- Embeds `updateFolderSharing` (folders.ts): creator or a listed assignee
may replace both sharing fields; the `sharedWith` list is stored verbatim,
unvalidated. -/
def updateFolderSharing (s : Store) (c : ClerkId) (folderId : FolderId)
    (shareWithFamily : Bool) (sharedWith : List UserId) : Except String Store :=
  match findUserByClerk s c with
  | none => Except.error "User not found"
  | some user =>
      match dbGetFolder s folderId with
      | none => Except.error "Folder not found"
      | some folder =>
          if folder.createdBy = user._id ∨ (folder.assignedTo.getD []).contains user._id then
            Except.ok (patchFolderRow s folderId (fun g =>
              { g with sharedWithFamily := shareWithFamily, sharedWith := some sharedWith }))
          else
            Except.error "Not authorized to share this folder"

/-- Embeds `bulkDeleteFiles` (files.ts): after the owner check, each listed
id is looked up in the current state; existing files uploaded by the caller
are deleted and their keys pushed, everything else is skipped silently. -/
def bulkDeleteFiles (s : Store) (c : ClerkId) (fileIds : List FileId) :
    Except String (Store × List String) :=
  match findUserByClerk s c with
  | none => Except.error "Only owners can delete files"
  | some user =>
      if ¬ user.role = some Role.owner then Except.error "Only owners can delete files"
      else
        Except.ok (fileIds.foldl
          (fun acc fid =>
            match dbGetFile acc.1 fid with
            | some file =>
                if file.uploadedBy = user._id then
                  (deleteFileRow acc.1 fid, acc.2 ++ [file.fileKey])
                else acc
            | none => acc)
          (s, []))

/-- The `while (currentFolderId)` loop of `getFolderPath`, with fuel: the
source breaks on a missing or cross-family folder, otherwise prepends the
breadcrumb and climbs; `none` is the fuel running out. -/
def pathWalk (s : Store) (familyId : FamilyId) :
    Nat → Option FolderId → List (FolderId × String) → Option (List (FolderId × String))
  | _, none, path => some path
  | 0, some _, _ => none
  | n + 1, some cur, path =>
      match dbGetFolder s cur with
      | none => some path
      | some folder =>
          if folder.familyId = familyId then
            pathWalk s familyId n folder.parentFolderId ((folder._id, folder.name) :: path)
          else some path

/-- Embeds `getFolderPath` (folders.ts); `none` when the breadcrumb loop
diverges on cyclic data. -/
def getFolderPath (s : Store) (c : ClerkId) (folderId : Option FolderId) :
    Option (List (FolderId × String)) :=
  match folderId with
  | none => some []
  | some fid =>
      match findUserByClerk s c with
      | none => some []
      | some user =>
          match user.familyId with
          | none => some []
          | some familyId => pathWalk s familyId (s.folders.length + 1) (some fid) []

/-! ### Acyclicity of the folder parent-chain -/

/-- The parent chain from `o` reaches a root or a dangling reference. -/
def Terminates (s : Store) (o : Option FolderId) : Prop :=
  ∃ n, (stepO s)^[n] o = none

/-- Decidable chain-termination check with the exact fuel bound. -/
def chainEndsB (s : Store) (o : Option FolderId) : Bool :=
  (stepO s)^[s.folders.length + 1] o == none

/-- Acyclicity of the folder parent-chain, as the spec uses it: from every
folder the parent chain reaches a root (or dangling reference) instead of
looping. -/
def AcyclicB (s : Store) : Bool :=
  s.folders.all (fun g => chainEndsB s (some g._id))

/-! ### Concrete stores used by counterexamples and witnesses -/

/-- Template user record for concrete stores. -/
def baseUser : User :=
  { _id := 0, clerkId := "", email := "", name := "", familyId := some 1,
    role := some Role.member }

/-- Template folder record for concrete stores. -/
def baseFolder : Folder :=
  { _id := 0, name := "d", parentFolderId := none, createdBy := 1,
    assignedTo := none, familyId := 1, sharedWithFamily := false,
    sharedWith := some [], createdAt := 0 }

/-- Template file record for concrete stores. -/
def baseFile : File :=
  { _id := 0, name := "f", originalName := "f", url := "", fileKey := "",
    type := "", size := 0, uploadedBy := 1, assignedTo := none, familyId := 1,
    folderId := none, tags := some [], sharedWithFamily := false,
    sharedWith := some [], createdAt := 0 }

/-- Owner user of the concrete stores. -/
def ownerU : User :=
  { baseUser with _id := 1, clerkId := "o", name := "O", role := some Role.owner }

/-- Member user of the concrete stores. -/
def memberU : User :=
  { baseUser with _id := 2, clerkId := "m", name := "M" }

/-- Store for the cascade-delete claim: folder 1 contains subfolder 2, which
contains subfolder 3; file 1 lies in folder 1, file 2 in folder 3. -/
def cascadeStore : Store :=
  { users := [ownerU],
    folders := [{ baseFolder with _id := 1 },
                { baseFolder with _id := 2, parentFolderId := some 1 },
                { baseFolder with _id := 3, parentFolderId := some 2 }],
    files := [{ baseFile with _id := 1, folderId := some 1, fileKey := "kF" },
              { baseFile with _id := 2, folderId := some 3, fileKey := "kT" }] }

/-- Third member `A` (id 3), assignee in some stores. -/
def memberA : User :=
  { baseUser with _id := 3, clerkId := "a", name := "A" }

/-- Store for the sharing-inheritance counterexample: folder 1 is shared
with the family but unassigned; file 1 lies in it, carries no sharing flags
and no assignee; the member is neither uploader nor assignee. -/
def inheritStore : Store :=
  { users := [ownerU, memberU],
    folders := [{ baseFolder with _id := 1, sharedWithFamily := true }],
    files := [{ baseFile with _id := 1, folderId := some 1 }] }

/-- Store for the rename counterexample: the sole user has role `member`
and is the uploader of file 1. -/
def renameStore : Store :=
  { users := [memberU],
    folders := [],
    files := [{ baseFile with _id := 1, uploadedBy := 2, fileKey := "k" }] }

/-- Store with a corrupted (cyclic) parent chain: folders 1 and 2 are each
other's parent; folder 3 is an ordinary root folder. -/
def cyclicStore : Store :=
  { users := [ownerU],
    folders := [{ baseFolder with _id := 1, parentFolderId := some 2 },
                { baseFolder with _id := 2, parentFolderId := some 1 },
                { baseFolder with _id := 3 }],
    files := [] }

/-- Store for the new-file sharing counterexample: folder 1 is assigned to
user 3 and shared with the family; no files yet. -/
def newFileStore : Store :=
  { users := [ownerU, memberU, memberA],
    folders := [{ baseFolder with
                  _id := 1, assignedTo := some [3], sharedWithFamily := true }],
    files := [] }

/-- The store after `createFile` into the shared folder of `newFileStore`,
assigning the new file to user 3 (the inserted record is fresh id 1). -/
def newFileStore2 : Store :=
  { newFileStore with
    files := [{ _id := 1, name := "n", originalName := "n", url := "u",
                fileKey := "k", type := "t", size := 0, uploadedBy := 1,
                assignedTo := some 3, familyId := 1, folderId := some 1,
                tags := some [], sharedWithFamily := false,
                sharedWith := some [], createdAt := 5 }] }

/-- Claim C1: deleting folder 1 of `cascadeStore` with `deleteContents`
should, per the claim (and the source's own comment, which announces a
recursive subfolder delete), remove every descendant folder and every
contained file and return both file keys.  The code removes only the direct
subfolder level: grandchild folder 3 and its file survive — folder 3 now
referencing the deleted folder 2 as parent — and only the key "kF" is
returned, not "kT". -/
theorem claim_C1_cascade_delete :
    deleteFolder cascadeStore "o" 1 true =
      Except.ok
        ({ users := [ownerU],
           folders := [{ baseFolder with _id := 3, parentFolderId := some 2 }],
           files := [{ baseFile with _id := 2, folderId := some 3, fileKey := "kT" }] },
         ["kF"]) := by
  rfl

/-- Claim C3 (counterexample): in `inheritStore` every premise of the claim
holds — the caller is a family member, folder 1 has `sharedWithFamily`,
file 1 lies in it with no sharing flags, and the member is neither uploader
nor assignee — yet `getSharedFiles` is empty both scoped to the folder and
unscoped: the code drops unassigned files and ignores folders whose
`assignedTo` is absent when it collects shared folders. -/
theorem claim_C3_counterexample :
    (findUserByClerk inheritStore "m" = some memberU ∧
      memberU.role = some Role.member ∧
      dbGetFolder inheritStore 1 =
        some { baseFolder with _id := 1, sharedWithFamily := true } ∧
      dbGetFile inheritStore 1 = some { baseFile with _id := 1, folderId := some 1 }) ∧
    getSharedFiles inheritStore "m" (some 1) none = [] ∧
    getSharedFiles inheritStore "m" none none = [] :=
  ⟨⟨rfl, rfl, rfl, rfl⟩, rfl, rfl⟩

/-- Claim C6 (counterexample): the caller of `renameStore` resolves to a
user whose role is `member`, not `owner`, yet `renameFile` succeeds because
the code checks only that the caller uploaded the file — the claimed
owner-role requirement is not enforced. -/
theorem claim_C6_counterexample :
    findUserByClerk renameStore "m" = some memberU ∧
    memberU.role = some Role.member ∧
    renameFile renameStore "m" 1 "new" =
      Except.ok
        ({ renameStore with
           files := [{ baseFile with
                       _id := 1, name := "new", uploadedBy := 2, fileKey := "k" }] },
         "k") :=
  ⟨rfl, rfl, rfl⟩

/-- Claim C8 (counterexample): on the corrupted `cyclicStore` the
ancestor-chain walk of `moveFolder` (moving folder 3 into the cycle) and the
breadcrumb walk of `getFolderPath` both fail to finish within
`folders.length + 1` iterations — the embedding's fuel-out `none`, i.e. the
source's unbounded `while` loops never terminate. -/
theorem claim_C8_counterexample :
    moveFolder cyclicStore "o" 3 (some 1) = none ∧
    getFolderPath cyclicStore "o" (some 1) = none :=
  ⟨rfl, rfl⟩

/-- Claim C9 (counterexample): `createFile` into the shared folder of
`newFileStore` yields a file whose own sharing fields are off
(`sharedWithFamily = false`, `sharedWith = []`, see `newFileStore2`), yet
the freshly created file immediately appears in `getSharedFiles` of member
`M` — no sharing mutation ever touched it; it is visible through the
containing folder's sharing. -/
theorem claim_C9_counterexample :
    createFile newFileStore "o" "n" "n" "u" "k" "t" 0 (some 3) none (some 1) 5 =
      Except.ok (newFileStore2, 1) ∧
    (getSharedFiles newFileStore2 "m" (some 1) none).map (fun e => e.file._id) = [1] :=
  ⟨rfl, rfl⟩

/-! ### Generic record-store lemmas -/

theorem find?_key_eq_some {α κ : Type} [DecidableEq κ] [BEq κ] [LawfulBEq κ]
    (key : α → κ) (l : List α) (j : κ) (x : α)
    (h : l.find? (fun y => key y == j) = some x) : x ∈ l ∧ key x = j :=
  ⟨List.mem_of_find?_eq_some h, by
    have := List.find?_some h
    simpa using this⟩

theorem find?_key_of_nodup {α κ : Type} [DecidableEq κ] [BEq κ] [LawfulBEq κ]
    (key : α → κ) (l : List α) (hnd : (l.map key).Nodup) (x : α) (hx : x ∈ l) :
    l.find? (fun y => key y == key x) = some x := by
  induction l with
  | nil => cases hx
  | cons h t ih =>
      rcases List.mem_cons.mp hx with rfl | hxt
      · simp [List.find?_cons]
      · have hnd' := hnd
        simp only [List.map_cons, List.nodup_cons] at hnd'
        by_cases hk : key h = key x
        · exact absurd (hk ▸ List.mem_map_of_mem key hxt) hnd'.1
        · have : (key h == key x) = false := by simpa using hk
          simp [List.find?_cons, this, ih hnd'.2 hxt]

theorem find?_key_map_patch {α κ : Type} [DecidableEq κ] [BEq κ] [LawfulBEq κ]
    (key : α → κ) (upd : α → α) (hkey : ∀ x, key (upd x) = key x)
    (l : List α) (i j : κ) :
    (l.map (fun x => if key x = i then upd x else x)).find? (fun y => key y == j)
      = (l.find? (fun y => key y == j)).map (fun x => if key x = i then upd x else x) := by
  rw [List.find?_map]
  have hfun : ((fun y => key y == j) ∘ fun x => if key x = i then upd x else x)
      = (fun y => key y == j) := by
    funext x
    by_cases h : key x = i <;> simp [Function.comp, h, hkey]
  rw [hfun]

theorem find?_key_eq_none {α κ : Type} [DecidableEq κ] [BEq κ] [LawfulBEq κ]
    (key : α → κ) (l : List α) (j : κ) (h : ∀ x ∈ l, ¬ key x = j) :
    l.find? (fun y => key y == j) = none := by
  apply List.find?_eq_none.mpr
  intro x hx
  simpa using h x hx

theorem foldl_patch_eq_map {α κ : Type} [DecidableEq κ] (key : α → κ) (upd : α → α)
    (hkey : ∀ x, key (upd x) = key x) (hidem : ∀ x, upd (upd x) = upd x)
    (ids : List κ) (l : List α) :
    ids.foldl (fun acc i => acc.map (fun x => if key x = i then upd x else x)) l
      = l.map (fun x => if key x ∈ ids then upd x else x) := by
  induction ids generalizing l with
  | nil => simp
  | cons i ids ih =>
      rw [List.foldl_cons, ih, List.map_map]
      apply List.map_congr_left
      intro x _
      by_cases h1 : key x = i
      · by_cases h2 : key x ∈ ids <;>
          simp [Function.comp, h1, hkey, h2, hidem, List.mem_cons]
      · by_cases h2 : key x ∈ ids <;>
          simp [Function.comp, h1, h2, List.mem_cons]

theorem foldl_erase_eq_filter {α κ : Type} [DecidableEq κ] (key : α → κ)
    (ids : List κ) (l : List α) :
    ids.foldl (fun acc i => acc.filter (fun x => ¬ key x = i)) l
      = l.filter (fun x => ¬ key x ∈ ids) := by
  induction ids generalizing l with
  | nil => simp
  | cons i ids ih =>
      rw [List.foldl_cons, ih, List.filter_filter]
      congr 1
      funext x
      by_cases h1 : key x = i <;> by_cases h2 : key x ∈ ids <;>
        simp [h1, h2, List.mem_cons]

theorem mem_map_key_filter_iff {α κ : Type} [DecidableEq κ] (key : α → κ)
    (p : α → Bool) (l : List α) (hnd : (l.map key).Nodup) (x : α) (hx : x ∈ l) :
    key x ∈ (l.filter p).map key ↔ p x = true := by
  constructor
  · intro h
    rcases List.mem_map.mp h with ⟨y, hy, hkeq⟩
    rcases List.mem_filter.mp hy with ⟨hyl, hpy⟩
    have : y = x := List.inj_on_of_nodup_map hnd hyl hx hkeq
    exact this ▸ hpy
  · intro h
    exact List.mem_map_of_mem key (List.mem_filter.mpr ⟨hx, h⟩)

theorem length_filter_key_eq_one {α κ : Type} [DecidableEq κ] (key : α → κ)
    (l : List α) (hnd : (l.map key).Nodup) (x : α) (hx : x ∈ l) :
    (l.filter (fun y => key y = key x)).length = 1 := by
  induction l with
  | nil => cases hx
  | cons hd t ih =>
      have hnd' := hnd
      simp only [List.map_cons, List.nodup_cons] at hnd'
      rcases List.mem_cons.mp hx with hEq | hxt
      · subst hEq
        have hnil : t.filter (fun y => key y = key x) = [] := by
          apply List.filter_eq_nil_iff.mpr
          intro y hy hkeq
          have hk2 : key y = key x := by simpa using hkeq
          exact hnd'.1 (hk2 ▸ List.mem_map_of_mem key hy)
        simp [List.filter_cons, hnil]
      · have hne : ¬ key hd = key x := fun hEq =>
          hnd'.1 (hEq ▸ List.mem_map_of_mem key hxt)
        simp [List.filter_cons, hne, ih hnd'.2 hxt]

/-! ### Chain-termination lemmas -/

theorem dbGetFolder_mem {s : Store} {fid : FolderId} {g : Folder}
    (h : dbGetFolder s fid = some g) : g ∈ s.folders ∧ g._id = fid := by
  rw [dbGetFolder] at h
  exact find?_key_eq_some (fun x => x._id) s.folders fid g h

theorem dbGetFile_mem {s : Store} {fid : FileId} {f : File}
    (h : dbGetFile s fid = some f) : f ∈ s.files ∧ f._id = fid := by
  rw [dbGetFile] at h
  exact find?_key_eq_some (fun x => x._id) s.files fid f h

theorem stepO_iterate_none (s : Store) (n : Nat) : (stepO s)^[n] none = none := by
  induction n with
  | zero => rfl
  | succ n ih => rw [Function.iterate_succ_apply]; exact ih

theorem iterate_none_mono (s : Store) {n m : Nat} (o : Option FolderId)
    (h : (stepO s)^[n] o = none) (hnm : n ≤ m) : (stepO s)^[m] o = none := by
  obtain ⟨k, rfl⟩ := Nat.exists_eq_add_of_le hnm
  rw [Nat.add_comm, Function.iterate_add_apply, h, stepO_iterate_none]

theorem terminates_bound (s : Store) (o : Option FolderId) (h : Terminates s o) :
    (stepO s)^[s.folders.length + 1] o = none := by
  classical
  have hfind : (stepO s)^[Nat.find h] o = none := Nat.find_spec h
  set n := Nat.find h with hn
  by_cases hle : n ≤ s.folders.length + 1
  · exact iterate_none_mono s o hfind hle
  exfalso
  push_neg at hle
  have hkey : ∀ i j, i < j → j ≤ n → (stepO s)^[i] o ≠ (stepO s)^[j] o := by
    intro i j hij hjn hEq
    have h2 : (stepO s)^[(n - j) + j] o = none := by
      rw [Nat.sub_add_cancel hjn]; exact hfind
    rw [Function.iterate_add_apply, ← hEq, ← Function.iterate_add_apply] at h2
    have hlt : (n - j) + i < n := by omega
    exact Nat.find_min h hlt h2
  have hne_none : ∀ i < n, (stepO s)^[i] o ≠ none := fun i hi => Nat.find_min h hi
  have hval : ∀ i, i + 1 < n →
      (stepO s)^[i] o ∈ s.folders.map (fun g => some g._id) := by
    intro i hi
    have hnext : (stepO s)^[i + 1] o ≠ none := hne_none _ hi
    rw [Function.iterate_succ_apply'] at hnext
    cases hcur : (stepO s)^[i] o with
    | none => rw [hcur] at hnext; exact absurd rfl hnext
    | some fid =>
        rw [hcur] at hnext
        cases hg : dbGetFolder s fid with
        | none => simp [stepO, hg] at hnext
        | some g =>
            have hmem := dbGetFolder_mem hg
            exact List.mem_map.mpr ⟨g, hmem.1, by rw [hmem.2]⟩
  have hinj : Set.InjOn (fun i => (stepO s)^[i] o) (Finset.range (n - 1)) := by
    intro i hi j hj hEq
    simp only [Finset.coe_range, Set.mem_Iio] at hi hj
    by_contra hne
    rcases Nat.lt_or_ge i j with hij | hij
    · exact hkey i j hij (by omega) hEq
    · have : j < i := by omega
      exact hkey j i this (by omega) hEq.symm
  have hmaps : ∀ i ∈ Finset.range (n - 1),
      (stepO s)^[i] o ∈ (s.folders.map (fun g => some g._id)).toFinset := by
    intro i hi
    rw [List.mem_toFinset]
    exact hval i (by have := Finset.mem_range.mp hi; omega)
  have hcard := Finset.card_le_card_of_injOn _ hmaps hinj
  rw [Finset.card_range] at hcard
  have hlen : (s.folders.map (fun g => some g._id)).toFinset.card ≤ s.folders.length := by
    calc (s.folders.map (fun g => some g._id)).toFinset.card
        ≤ (s.folders.map (fun g => some g._id)).length := List.toFinset_card_le _
      _ = s.folders.length := List.length_map _ _
  omega

theorem terminates_of_acyclicB {s : Store} (h : AcyclicB s = true) :
    ∀ o, Terminates s o := by
  intro o
  cases o with
  | none => exact ⟨0, rfl⟩
  | some fid =>
      cases hg : dbGetFolder s fid with
      | none =>
          refine ⟨1, ?_⟩
          simp [Function.iterate_one, stepO, hg]
      | some g =>
          have hmem := dbGetFolder_mem hg
          have hall := List.all_eq_true.mp h g hmem.1
          refine ⟨s.folders.length + 1, ?_⟩
          have hend : (stepO s)^[s.folders.length + 1] (some g._id) = none := by
            simpa [chainEndsB] using hall
          rwa [hmem.2] at hend

theorem acyclicB_of_terminates {s : Store}
    (h : ∀ g ∈ s.folders, Terminates s (some g._id)) : AcyclicB s = true := by
  apply List.all_eq_true.mpr
  intro g hg
  have := terminates_bound s (some g._id) (h g hg)
  simpa [chainEndsB] using this

theorem moveWalk_complete {s : Store} {fid : FolderId} {o : Option FolderId} {n fuel : Nat}
    (h : (stepO s)^[n] o = none) (hle : n ≤ fuel) :
    ∃ b, moveWalk s fid fuel o = some b := by
  induction fuel generalizing o n with
  | zero =>
      have hn0 : n = 0 := Nat.le_zero.mp hle
      subst hn0
      rw [Function.iterate_zero_apply] at h
      subst h
      exact ⟨false, rfl⟩
  | succ fuel ih =>
      cases o with
      | none => exact ⟨false, rfl⟩
      | some cur =>
          by_cases hc : cur = fid
          · exact ⟨true, by simp [moveWalk, hc]⟩
          · cases n with
            | zero => rw [Function.iterate_zero_apply] at h; cases h
            | succ n =>
                rw [Function.iterate_succ_apply] at h
                obtain ⟨b, hb⟩ := ih h (by omega)
                exact ⟨b, by simp [moveWalk, hc, hb]⟩

theorem moveWalk_false_avoids {s : Store} {fid : FolderId} {fuel : Nat} {o : Option FolderId}
    (h : moveWalk s fid fuel o = some false) :
    ∀ n, (stepO s)^[n] o ≠ some fid := by
  induction fuel generalizing o with
  | zero =>
      cases o with
      | none => intro n; rw [stepO_iterate_none]; simp
      | some cur => cases h
  | succ fuel ih =>
      cases o with
      | none => intro n; rw [stepO_iterate_none]; simp
      | some cur =>
          by_cases hc : cur = fid
          · rw [moveWalk, if_pos hc] at h; cases h
          · have h2 : moveWalk s fid fuel (stepO s (some cur)) = some false := by
              rwa [moveWalk, if_neg hc] at h
            intro n
            cases n with
            | zero => rw [Function.iterate_zero_apply]; simpa using hc
            | succ n =>
                rw [Function.iterate_succ_apply]
                exact ih h2 n

theorem dbGetFolder_patch (s : Store) (upd : Folder → Folder)
    (hkey : ∀ g, (upd g)._id = g._id) (i j : FolderId) :
    dbGetFolder (patchFolderRow s i upd) j
      = (dbGetFolder s j).map (fun g => if g._id = i then upd g else g) := by
  rw [dbGetFolder, dbGetFolder, patchFolderRow]
  exact find?_key_map_patch (fun x => x._id) upd hkey s.folders i j

theorem stepO_patch_ne (s : Store) (fid : FolderId) (np : Option FolderId)
    (o : Option FolderId) (ho : ¬ o = some fid) :
    stepO (patchFolderRow s fid (fun g => { g with parentFolderId := np })) o
      = stepO s o := by
  cases o with
  | none => rfl
  | some j =>
      have hj : ¬ j = fid := fun hEq => ho (by rw [hEq])
      rw [stepO, stepO,
        dbGetFolder_patch s (fun g => { g with parentFolderId := np }) (fun g => rfl) fid j]
      cases hg : dbGetFolder s j with
      | none => rfl
      | some g =>
          have hid : g._id = j := (dbGetFolder_mem hg).2
          simp [hid, hj]

theorem stepO_patch_self (s : Store) (fid : FolderId) (np : Option FolderId) :
    stepO (patchFolderRow s fid (fun g => { g with parentFolderId := np })) (some fid) = none ∨
    stepO (patchFolderRow s fid (fun g => { g with parentFolderId := np })) (some fid) = np := by
  rw [stepO,
    dbGetFolder_patch s (fun g => { g with parentFolderId := np }) (fun g => rfl) fid fid]
  cases hg : dbGetFolder s fid with
  | none => exact Or.inl rfl
  | some g =>
      have hid : g._id = fid := (dbGetFolder_mem hg).2
      right
      simp [hid]

theorem iterate_patch_eq_of_avoid (s : Store) (fid : FolderId) (np : Option FolderId)
    (o : Option FolderId) (n : Nat)
    (h : ∀ i < n, (stepO s)^[i] o ≠ some fid) :
    (stepO (patchFolderRow s fid (fun g => { g with parentFolderId := np })))^[n] o
      = (stepO s)^[n] o := by
  induction n with
  | zero => rfl
  | succ n ih =>
      rw [Function.iterate_succ_apply', Function.iterate_succ_apply',
        ih (fun i hi => h i (by omega))]
      exact stepO_patch_ne s fid np _ (h n (by omega))

theorem terminates_patch (s : Store) (fid : FolderId) (np : Option FolderId)
    (hall : ∀ o, Terminates s o)
    (havoid : ∀ m, (stepO s)^[m] np ≠ some fid) :
    ∀ o, Terminates (patchFolderRow s fid (fun g => { g with parentFolderId := np })) o := by
  classical
  have hnp : ∀ m, (stepO (patchFolderRow s fid (fun g => { g with parentFolderId := np })))^[m] np
      = (stepO s)^[m] np := fun m =>
    iterate_patch_eq_of_avoid s fid np np m (fun i _ => havoid i)
  have hnpterm :
      Terminates (patchFolderRow s fid (fun g => { g with parentFolderId := np })) np := by
    obtain ⟨k, hk⟩ := hall np
    exact ⟨k, by rw [hnp]; exact hk⟩
  have hfidterm :
      Terminates (patchFolderRow s fid (fun g => { g with parentFolderId := np })) (some fid) := by
    rcases stepO_patch_self s fid np with hnone | hstep
    · exact ⟨1, by rw [Function.iterate_one]; exact hnone⟩
    · obtain ⟨k, hk⟩ := hnpterm
      refine ⟨k + 1, ?_⟩
      rw [Function.iterate_succ_apply, hstep]
      exact hk
  intro o
  by_cases hreach : ∃ m, (stepO s)^[m] o = some fid
  · have hm := Nat.find_spec hreach
    have hmin : ∀ i < Nat.find hreach, (stepO s)^[i] o ≠ some fid :=
      fun i hi => Nat.find_min hreach hi
    have heq := iterate_patch_eq_of_avoid s fid np o (Nat.find hreach) hmin
    obtain ⟨k, hk⟩ := hfidterm
    refine ⟨Nat.find hreach + k, ?_⟩
    rw [Nat.add_comm, Function.iterate_add_apply, heq, hm]
    exact hk
  · push_neg at hreach
    obtain ⟨k, hk⟩ := hall o
    refine ⟨k, ?_⟩
    rw [iterate_patch_eq_of_avoid s fid np o k (fun i _ => hreach i)]
    exact hk

theorem acyclicB_patch (s : Store) (fid : FolderId) (np : Option FolderId)
    (hacyc : AcyclicB s = true)
    (havoid : ∀ m, (stepO s)^[m] np ≠ some fid) :
    AcyclicB (patchFolderRow s fid (fun g => { g with parentFolderId := np })) = true := by
  apply acyclicB_of_terminates
  intro g _
  exact terminates_patch s fid np (terminates_of_acyclicB hacyc) havoid (some g._id)

/-- Claim C2: starting from a store whose folder parent-chain is acyclic,
`moveFolder` always finishes, and every call either throws (an
`Except.error`; the embedding commits no write in that case, so every
folder's fields are unchanged) or commits a store whose parent-chain is
still acyclic; and whenever the requested parent is the moved folder itself
or one of its descendants — the moved folder's id occurs on the target's
ancestor chain — the call throws. -/
theorem claim_C2_moveFolder_acyclic (s : Store) (c : ClerkId) (folderId : FolderId)
    (np : Option FolderId) (hacyc : AcyclicB s = true) :
    (¬ moveFolder s c folderId np = none) ∧
    (∀ r, moveFolder s c folderId np = some r →
      (∃ msg, r = Except.error msg) ∨
      (∃ s', r = Except.ok s' ∧ AcyclicB s' = true)) ∧
    (∀ t n, np = some t → (stepO s)^[n] (some t) = some folderId →
      ∃ msg, moveFolder s c folderId np = some (Except.error msg)) := by
  have hterm := terminates_of_acyclicB hacyc
  cases hu : findUserByClerk s c with
  | none =>
      have hres : moveFolder s c folderId np = some (Except.error "User not found") := by
        simp [moveFolder, hu]
      refine ⟨by rw [hres]; simp, ?_, ?_⟩
      · intro r hr
        rw [hres] at hr
        exact Or.inl ⟨_, (Option.some_inj.mp hr).symm⟩
      · intro t n _ _
        exact ⟨_, hres⟩
  | some user =>
      cases hg : dbGetFolder s folderId with
      | none =>
          have hres : moveFolder s c folderId np = some (Except.error "Folder not found") := by
            simp [moveFolder, hu, hg]
          refine ⟨by rw [hres]; simp, ?_, ?_⟩
          · intro r hr
            rw [hres] at hr
            exact Or.inl ⟨_, (Option.some_inj.mp hr).symm⟩
          · intro t n _ _
            exact ⟨_, hres⟩
      | some folder =>
          by_cases hauth : user.role = some Role.owner ∧ folder.createdBy = user._id
          · cases hnp : np with
            | none =>
                have hres : moveFolder s c folderId none =
                    some (Except.ok (patchFolderRow s folderId
                      (fun g => { g with parentFolderId := none }))) := by
                  simp [moveFolder, hu, hg, hauth.1, hauth.2]
                refine ⟨by rw [hres]; simp, ?_, ?_⟩
                · intro r hr
                  rw [hres] at hr
                  refine Or.inr ⟨_, (Option.some_inj.mp hr).symm, ?_⟩
                  apply acyclicB_patch s folderId none hacyc
                  intro m
                  rw [stepO_iterate_none]
                  simp
                · intro t n ht _
                  cases ht
            | some t' =>
                cases hw : moveWalk s folderId (s.folders.length + 1) (some t') with
                | none =>
                    exfalso
                    obtain ⟨b, hb⟩ :=
                      @moveWalk_complete s folderId (some t') (s.folders.length + 1)
                        (s.folders.length + 1)
                        (terminates_bound s (some t') (hterm _)) (le_refl _)
                    rw [hw] at hb
                    cases hb
                | some b =>
                    cases b with
                    | true =>
                        have hres : moveFolder s c folderId (some t') =
                            some (Except.error
                              "Cannot move a folder into itself or its descendants") := by
                          simp [moveFolder, hu, hg, hauth.1, hauth.2, hw]
                        refine ⟨by rw [hres]; simp, ?_, ?_⟩
                        · intro r hr
                          rw [hres] at hr
                          exact Or.inl ⟨_, (Option.some_inj.mp hr).symm⟩
                        · intro t n _ _
                          exact ⟨_, hres⟩
                    | false =>
                        have havoid := moveWalk_false_avoids hw
                        cases hnpf : dbGetFolder s t' with
                        | none =>
                            have hres : moveFolder s c folderId (some t') =
                                some (Except.error "Target folder not found") := by
                              simp [moveFolder, hu, hg, hauth.1, hauth.2, hw, hnpf]
                            refine ⟨by rw [hres]; simp, ?_, ?_⟩
                            · intro r hr
                              rw [hres] at hr
                              exact Or.inl ⟨_, (Option.some_inj.mp hr).symm⟩
                            · intro t n ht hreach
                              cases ht
                              exact absurd hreach (havoid n)
                        | some newParent =>
                            by_cases hfam : newParent.familyId = folder.familyId
                            · have hres : moveFolder s c folderId (some t') =
                                  some (Except.ok (patchFolderRow s folderId
                                    (fun g => { g with parentFolderId := some t' }))) := by
                                simp [moveFolder, hu, hg, hauth.1, hauth.2, hw, hnpf, hfam]
                              refine ⟨by rw [hres]; simp, ?_, ?_⟩
                              · intro r hr
                                rw [hres] at hr
                                refine Or.inr ⟨_, (Option.some_inj.mp hr).symm, ?_⟩
                                exact acyclicB_patch s folderId (some t') hacyc havoid
                              · intro t n ht hreach
                                cases ht
                                exact absurd hreach (havoid n)
                            · have hres : moveFolder s c folderId (some t') =
                                  some (Except.error "Target folder not found") := by
                                simp [moveFolder, hu, hg, hauth.1, hauth.2, hw, hnpf, hfam]
                              refine ⟨by rw [hres]; simp, ?_, ?_⟩
                              · intro r hr
                                rw [hres] at hr
                                exact Or.inl ⟨_, (Option.some_inj.mp hr).symm⟩
                              · intro t n ht hreach
                                cases ht
                                exact absurd hreach (havoid n)
          · have hres : moveFolder s c folderId np =
                some (Except.error "Not authorized to move this folder") := by
              simp [moveFolder, hu, hg, hauth]
            refine ⟨by rw [hres]; simp, ?_, ?_⟩
            · intro r hr
              rw [hres] at hr
              exact Or.inl ⟨_, (Option.some_inj.mp hr).symm⟩
            · intro t n _ _
              exact ⟨_, hres⟩

/-- Witness for claim C2 at a concrete acyclic store. -/
theorem claim_C2_witness :
    AcyclicB cascadeStore = true ∧
    ¬ moveFolder cascadeStore "o" 1 (some 3) = none :=
  ⟨by rfl, (claim_C2_moveFolder_acyclic cascadeStore "o" 1 (some 3) (by rfl)).1⟩

theorem pathWalk_complete {s : Store} {familyId : FamilyId} {o : Option FolderId}
    {path : List (FolderId × String)} {n fuel : Nat}
    (h : (stepO s)^[n] o = none) (hle : n ≤ fuel) :
    ∃ r, pathWalk s familyId fuel o path = some r := by
  induction fuel generalizing o n path with
  | zero =>
      have hn0 : n = 0 := Nat.le_zero.mp hle
      subst hn0
      rw [Function.iterate_zero_apply] at h
      subst h
      exact ⟨path, rfl⟩
  | succ fuel ih =>
      cases o with
      | none => exact ⟨path, rfl⟩
      | some cur =>
          cases n with
          | zero => rw [Function.iterate_zero_apply] at h; cases h
          | succ n =>
              rw [Function.iterate_succ_apply] at h
              cases hg : dbGetFolder s cur with
              | none => exact ⟨path, by simp [pathWalk, hg]⟩
              | some folder =>
                  by_cases hfam : folder.familyId = familyId
                  · have hstep : stepO s (some cur) = folder.parentFolderId := by
                      simp [stepO, hg]
                    rw [hstep] at h
                    obtain ⟨r, hr⟩ :=
                      @ih folder.parentFolderId ((folder._id, folder.name) :: path) n h (by omega)
                    exact ⟨r, by simp [pathWalk, hg, hfam, hr]⟩
                  · exact ⟨path, by simp [pathWalk, hg, hfam]⟩

/-- Claim C8 (amended): on a store whose folder parent-chain is acyclic both
walks finish within `folders.length + 1` iterations (the family folder-count
bound the spec asks for); on a store whose chain already contains a cycle
they need not (see the counterexample). -/
theorem claim_C8_amended (s : Store) (hacyc : AcyclicB s = true) :
    (∀ folderId t, ∃ b, moveWalk s folderId (s.folders.length + 1) t = some b) ∧
    (∀ familyId t path, ∃ r, pathWalk s familyId (s.folders.length + 1) t path = some r) := by
  have hterm := terminates_of_acyclicB hacyc
  constructor
  · intro folderId t
    exact moveWalk_complete (terminates_bound s t (hterm t)) (le_refl _)
  · intro familyId t path
    exact pathWalk_complete (terminates_bound s t (hterm t)) (le_refl _)

/-- Witness for the amended claim C8 at a concrete acyclic store. -/
theorem claim_C8_amended_witness :
    AcyclicB cascadeStore = true ∧
    (∃ b, moveWalk cascadeStore 1 4 (some 3) = some b) :=
  ⟨by rfl, (claim_C8_amended cascadeStore (by rfl)).1 1 (some 3)⟩

/-! ### The promote branch of deleteFolder -/

theorem foldl_patchFileRow_eq (targets : List File) (upd : File → File) (s : Store) :
    targets.foldl (fun st t => patchFileRow st t._id upd) s =
      { s with
        files := (targets.map (fun t => t._id)).foldl
                   (fun acc i => acc.map (fun f => if f._id = i then upd f else f))
                   s.files } := by
  induction targets generalizing s with
  | nil => rfl
  | cons t ts ih => rw [List.foldl_cons, List.map_cons, List.foldl_cons, ih]; rfl

theorem foldl_patchFolderRow_eq (targets : List Folder) (upd : Folder → Folder) (s : Store) :
    targets.foldl (fun st t => patchFolderRow st t._id upd) s =
      { s with
        folders := (targets.map (fun t => t._id)).foldl
                     (fun acc i => acc.map (fun g => if g._id = i then upd g else g))
                     s.folders } := by
  induction targets generalizing s with
  | nil => rfl
  | cons t ts ih => rw [List.foldl_cons, List.map_cons, List.foldl_cons, ih]; rfl

theorem patch_children_files (s : Store) (fid : FolderId) (np : Option FolderId)
    (hnd : (s.files.map (fun f => f._id)).Nodup) :
    (filesByFolder s fid).foldl
        (fun st file => patchFileRow st file._id (fun f => { f with folderId := np })) s
      = { s with files := s.files.map (fun f =>
          if f.folderId = some fid then { f with folderId := np } else f) } := by
  rw [foldl_patchFileRow_eq]
  congr 1
  have h1 := foldl_patch_eq_map (fun f => f._id) (fun f => { f with folderId := np })
    (fun f => rfl) (fun f => rfl) ((filesByFolder s fid).map (fun t => t._id)) s.files
  refine h1.trans ?_
  apply List.map_congr_left
  intro f hf
  have hiff := mem_map_key_filter_iff (fun f => f._id) (fun f => f.folderId == some fid)
    s.files hnd f hf
  by_cases hp : f.folderId = some fid
  · have hmem : f._id ∈ (filesByFolder s fid).map (fun t => t._id) := by
      simpa [filesByFolder] using hiff.mpr (by simpa using hp)
    rw [if_pos hmem, if_pos hp]
  · have hnmem : ¬ f._id ∈ (filesByFolder s fid).map (fun t => t._id) := by
      intro hmem
      exact hp (by simpa using hiff.mp (by simpa [filesByFolder] using hmem))
    rw [if_neg hnmem, if_neg hp]

theorem patch_children_folders (s0 s : Store) (h0 : s0.folders = s.folders)
    (fid : FolderId) (np : Option FolderId)
    (hnd : (s.folders.map (fun g => g._id)).Nodup) :
    (foldersByParent s0 (some fid)).foldl
        (fun st sub => patchFolderRow st sub._id (fun g => { g with parentFolderId := np })) s
      = { s with folders := s.folders.map (fun g =>
          if g.parentFolderId = some fid then { g with parentFolderId := np } else g) } := by
  have htgt : foldersByParent s0 (some fid) = foldersByParent s (some fid) := by
    rw [foldersByParent, foldersByParent, h0]
  rw [htgt, foldl_patchFolderRow_eq]
  congr 1
  have h1 := foldl_patch_eq_map (fun g => g._id) (fun g => { g with parentFolderId := np })
    (fun g => rfl) (fun g => rfl) ((foldersByParent s (some fid)).map (fun t => t._id)) s.folders
  refine h1.trans ?_
  apply List.map_congr_left
  intro g hg
  have hiff := mem_map_key_filter_iff (fun g => g._id) (fun g => g.parentFolderId == some fid)
    s.folders hnd g hg
  by_cases hp : g.parentFolderId = some fid
  · have hmem : g._id ∈ (foldersByParent s (some fid)).map (fun t => t._id) := by
      simpa [foldersByParent] using hiff.mpr (by simpa using hp)
    rw [if_pos hmem, if_pos hp]
  · have hnmem : ¬ g._id ∈ (foldersByParent s (some fid)).map (fun t => t._id) := by
      intro hmem
      exact hp (by simpa using hiff.mp (by simpa [foldersByParent] using hmem))
    rw [if_neg hnmem, if_neg hp]

theorem length_filter_key_ne_add_one {α κ : Type} [DecidableEq κ] (key : α → κ)
    (l : List α) (k : κ) (hnd : (l.map key).Nodup) (x : α) (hx : x ∈ l) (hk : key x = k) :
    (l.filter (fun y => ¬ key y = k)).length + 1 = l.length := by
  induction l with
  | nil => cases hx
  | cons hd t ih =>
      simp only [List.map_cons, List.nodup_cons] at hnd
      rcases List.mem_cons.mp hx with hEq | hxt
      · subst hEq
        have hall : t.filter (fun y => ¬ key y = k) = t := by
          apply List.filter_eq_self.mpr
          intro y hy
          have hy2 : ¬ key y = k := fun hEq2 =>
            hnd.1 ((hEq2.trans hk.symm) ▸ List.mem_map_of_mem key hy)
          simpa using hy2
        rw [List.filter_cons, if_neg (by simp [hk]), hall, List.length_cons]
      · have hne : ¬ key hd = k := fun hEq2 =>
          hnd.1 ((hEq2.trans hk.symm) ▸ List.mem_map_of_mem key hxt)
        rw [List.filter_cons, if_pos (by simpa using hne), List.length_cons, List.length_cons]
        have hih := ih hnd.2 hxt
        omega

/-- Claim C5: for a folder `F` owned and created by the caller,
`deleteFolder` without `deleteContents` re-parents every direct child file
and every direct child subfolder of `F` to `F`'s former parent (root when
`F` had none), removes `F` itself, returns no storage keys, keeps the
number of files unchanged and removes exactly one folder. -/
theorem claim_C5_deleteFolder_promote (s : Store) (c : ClerkId) (u : User) (F : Folder)
    (hndFi : (s.files.map (fun f => f._id)).Nodup)
    (hndFo : (s.folders.map (fun g => g._id)).Nodup)
    (hu : findUserByClerk s c = some u)
    (hrole : u.role = some Role.owner)
    (hget : dbGetFolder s F._id = some F)
    (hcb : F.createdBy = u._id) :
    ∃ s', deleteFolder s c F._id false = Except.ok (s', []) ∧
      s'.users = s.users ∧
      s'.files = s.files.map (fun f =>
        if f.folderId = some F._id then { f with folderId := F.parentFolderId } else f) ∧
      s'.folders = (s.folders.map (fun g =>
        if g.parentFolderId = some F._id then { g with parentFolderId := F.parentFolderId }
        else g)).filter (fun g => ¬ g._id = F._id) ∧
      s'.files.length = s.files.length ∧
      s'.folders.length + 1 = s.folders.length := by
  have hFmem : F ∈ s.folders := (dbGetFolder_mem hget).1
  refine ⟨{ users := s.users,
            folders := (s.folders.map (fun g =>
              if g.parentFolderId = some F._id then { g with parentFolderId := F.parentFolderId }
              else g)).filter (fun g => ¬ g._id = F._id),
            files := s.files.map (fun f =>
              if f.folderId = some F._id then { f with folderId := F.parentFolderId } else f) },
    ?_, rfl, rfl, rfl, by simp, ?_⟩
  · simp only [deleteFolder, hu, hget]
    rw [if_neg (not_not_intro ⟨hrole, hcb⟩)]
    simp only [Bool.false_eq_true, if_false]
    rw [patch_children_files s F._id F.parentFolderId hndFi]
    rw [patch_children_folders s
      { s with files := s.files.map (fun f =>
          if f.folderId = some F._id then { f with folderId := F.parentFolderId } else f) }
      rfl F._id F.parentFolderId hndFo]
    rfl
  · have hid : ∀ g : Folder,
        ((fun g => if g.parentFolderId = some F._id
          then { g with parentFolderId := F.parentFolderId } else g) g)._id = g._id := by
      intro g
      by_cases hq : g.parentFolderId = some F._id <;> simp [hq]
    have hndM : ((s.folders.map (fun g =>
        if g.parentFolderId = some F._id then { g with parentFolderId := F.parentFolderId }
        else g)).map (fun g => g._id)).Nodup := by
      rw [List.map_map]
      have hcomp : ((fun g : Folder => g._id) ∘ (fun g =>
          if g.parentFolderId = some F._id then { g with parentFolderId := F.parentFolderId }
          else g)) = (fun g : Folder => g._id) := by
        funext g
        exact hid g
      rw [hcomp]
      exact hndFo
    have hlen := length_filter_key_ne_add_one (fun g : Folder => g._id)
      (s.folders.map (fun g =>
        if g.parentFolderId = some F._id then { g with parentFolderId := F.parentFolderId }
        else g)) F._id hndM _
      (List.mem_map_of_mem _ hFmem) (hid F)
    rw [hlen, List.length_map]

/-- Witness for claim C5 at a concrete store. -/
theorem claim_C5_witness :
    findUserByClerk cascadeStore "o" = some ownerU ∧
    (∃ s', deleteFolder cascadeStore "o" 1 false = Except.ok (s', []) ∧
      s'.files.length = cascadeStore.files.length ∧
      s'.folders.length + 1 = cascadeStore.folders.length) := by
  refine ⟨rfl, ?_⟩
  obtain ⟨s', h1, _, _, _, h5, h6⟩ := claim_C5_deleteFolder_promote cascadeStore "o" ownerU
    { baseFolder with _id := 1 } (by decide) (by decide) rfl rfl rfl rfl
  exact ⟨s', h1, h5, h6⟩

/-! ### Membership in the file queries -/

theorem getSharedFiles_visible (s : Store) (c : ClerkId) (folId : Option FolderId)
    (ro : Option Bool) (e : SharedFileInfo) (he : e ∈ getSharedFiles s c folId ro) :
    ∃ user familyId, findUserByClerk s c = some user ∧ user.familyId = some familyId ∧
      e.file ∈ familyFilesInScope s familyId folId ro ∧
      sharedFileVisible user (sharedFolderIdList s user familyId) e.file = true := by
  cases hu : findUserByClerk s c with
  | none => simp [getSharedFiles, hu] at he
  | some user =>
      cases hfam : user.familyId with
      | none => simp [getSharedFiles, hu, hfam] at he
      | some familyId =>
          simp only [getSharedFiles, hu, hfam] at he
          rw [mem_sortByName] at he
          obtain ⟨f, hfmem, hfe⟩ := List.mem_map.mp he
          obtain ⟨hscope, hvis⟩ := List.mem_filter.mp hfmem
          subst hfe
          exact ⟨user, familyId, rfl, hfam, hscope, hvis⟩

theorem file_mem_getSharedFiles (s : Store) (c : ClerkId) (folId : Option FolderId)
    (ro : Option Bool) (user : User) (familyId : FamilyId) (f : File)
    (hu : findUserByClerk s c = some user) (hfam : user.familyId = some familyId)
    (hscope : f ∈ familyFilesInScope s familyId folId ro)
    (hvis : sharedFileVisible user (sharedFolderIdList s user familyId) f = true) :
    f ∈ (getSharedFiles s c folId ro).map (fun e => e.file) := by
  simp only [getSharedFiles, hu, hfam]
  have hvf : f ∈ (familyFilesInScope s familyId folId ro).filter
      (sharedFileVisible user (sharedFolderIdList s user familyId)) :=
    List.mem_filter.mpr ⟨hscope, hvis⟩
  have hmem := List.mem_map_of_mem (fun f => SharedFileInfo.mk f
    (((dbGetUser s f.uploadedBy).map (fun u => u.name)).getD "Unknown")
    (assigneeNameOf s f.assignedTo)) hvf
  exact List.mem_map.mpr ⟨_, (mem_sortByName _ _ _).mpr hmem, rfl⟩

theorem file_mem_getMyFiles (s : Store) (c : ClerkId) (folId : Option FolderId)
    (ro : Option Bool) (user : User) (familyId : FamilyId) (f : File)
    (hu : findUserByClerk s c = some user) (hfam : user.familyId = some familyId)
    (hrole : ¬ user.role = some Role.owner)
    (hscope : f ∈ familyFilesInScope s familyId folId ro)
    (hok : (f.assignedTo == some user._id || f.assignedTo == none) = true) :
    f ∈ (getMyFiles s c folId ro).map (fun e => e.file) := by
  simp only [getMyFiles, hu, hfam]
  rw [if_neg hrole]
  have hvf : f ∈ (familyFilesInScope s familyId folId ro).filter
      (fun f => f.assignedTo == some user._id || f.assignedTo == none) :=
    List.mem_filter.mpr ⟨hscope, hok⟩
  have hmem := List.mem_map_of_mem
    (fun f => FileWithAssignee.mk f (assigneeNameOf s f.assignedTo)) hvf
  exact List.mem_map.mpr ⟨_, (mem_sortByName _ _ _).mpr hmem, rfl⟩

theorem file_mem_scope_folder (s : Store) (familyId : FamilyId) (d : FolderId)
    (ro : Option Bool) (f : File) (hf : f ∈ s.files) (hfol : f.folderId = some d)
    (hfam : f.familyId = familyId) :
    f ∈ familyFilesInScope s familyId (some d) ro := by
  rw [familyFilesInScope]
  refine List.mem_filter.mpr ⟨?_, by simpa using hfam⟩
  rw [filesByFolder]
  exact List.mem_filter.mpr ⟨hf, by simpa using hfol⟩

theorem file_mem_scope_root (s : Store) (familyId : FamilyId) (f : File)
    (hf : f ∈ s.files) (hfol : f.folderId = none) (hfam : f.familyId = familyId) :
    f ∈ familyFilesInScope s familyId none (some true) := by
  rw [familyFilesInScope]
  simp only [Option.getD_some, if_true]
  refine List.mem_filter.mpr ⟨?_, by simpa using hfol⟩
  rw [filesByFamily]
  exact List.mem_filter.mpr ⟨hf, by simpa using hfam⟩

/-- Claim C4: a file with no assignee never appears in `getSharedFiles` for
any caller under any scope, and appears in `getMyFiles` — under the scope
matching its folder — for every role-`member` user of its family (for each
such user simultaneously). -/
theorem claim_C4_unassigned_files (s : Store) (fam : FamilyId) (f : File)
    (hf : f ∈ s.files) (hfam : f.familyId = fam) (hna : f.assignedTo = none) :
    (∀ (c : ClerkId) (folId : Option FolderId) (ro : Option Bool),
      ¬ f ∈ (getSharedFiles s c folId ro).map (fun e => e.file)) ∧
    (∀ u ∈ s.users, u.familyId = some fam → u.role = some Role.member →
      findUserByClerk s u.clerkId = some u →
      ((∀ d, f.folderId = some d →
          f ∈ (getMyFiles s u.clerkId (some d) none).map (fun e => e.file)) ∧
        (f.folderId = none →
          f ∈ (getMyFiles s u.clerkId none (some true)).map (fun e => e.file)))) := by
  constructor
  · intro c folId ro hmem
    obtain ⟨e, he, hef⟩ := List.mem_map.mp hmem
    obtain ⟨user, familyId, _, _, _, hvis⟩ := getSharedFiles_visible s c folId ro e he
    rw [sharedFileVisible] at hvis
    simp only [hef, hna] at hvis
    simp at hvis
  · intro u _ hufam hurole hresolve
    have hnotOwner : ¬ u.role = some Role.owner := by
      rw [hurole]
      simp
    constructor
    · intro d hd
      apply file_mem_getMyFiles s u.clerkId (some d) none u fam f hresolve hufam hnotOwner
      · exact file_mem_scope_folder s fam d none f hf hd hfam
      · simp [hna]
    · intro hd
      apply file_mem_getMyFiles s u.clerkId none (some true) u fam f hresolve hufam hnotOwner
      · exact file_mem_scope_root s fam f hf hd hfam
      · simp [hna]

/-- Witness for claim C4 at a concrete store. -/
theorem claim_C4_witness :
    (¬ ({ baseFile with _id := 1, folderId := some 1 } : File) ∈
        (getSharedFiles inheritStore "m" (some 1) none).map (fun e => e.file)) ∧
    ({ baseFile with _id := 1, folderId := some 1 } : File) ∈
        (getMyFiles inheritStore "m" (some 1) none).map (fun e => e.file) := by
  have h := claim_C4_unassigned_files inheritStore 1
    { baseFile with _id := 1, folderId := some 1 } (by decide) rfl rfl
  exact ⟨h.1 "m" (some 1) none, (h.2 memberU (by decide) rfl rfl rfl).1 1 rfl⟩

theorem file_mem_scope_all (s : Store) (familyId : FamilyId) (f : File)
    (hf : f ∈ s.files) (hfam : f.familyId = familyId) :
    f ∈ familyFilesInScope s familyId none none := by
  rw [familyFilesInScope]
  simp only [Option.getD_none, Bool.false_eq_true, if_false]
  rw [filesByFamily]
  exact List.mem_filter.mpr ⟨hf, by simpa using hfam⟩

/-- Claim C3 (amended): the one-level sharing inheritance of
`getSharedFiles` holds with the preconditions the code actually imposes:
the shared folder must carry a present (non-`undefined`) assignee list and
not be created by the member, and the file must be assigned to some user
other than the member (the code excludes unassigned files, which surface in
`getMyFiles` instead, and ignores unassigned folders when collecting shared
folders).  Under those conditions a file with no own sharing flags inside a
`sharedWithFamily` folder is returned by `getSharedFiles` for a member who
is neither its uploader nor its assignee, scoped to the folder or
unscoped. -/
theorem claim_C3_amended (s : Store) (fam : FamilyId) (M : User) (D : Folder) (f : File)
    (a : UserId)
    (hres : findUserByClerk s M.clerkId = some M)
    (hMfam : M.familyId = some fam)
    (hD : D ∈ s.folders) (hDfam : D.familyId = fam)
    (hDshared : D.sharedWithFamily = true)
    (hDassigned : ¬ D.assignedTo = none)
    (hDcb : ¬ D.createdBy = M._id)
    (hfmem : f ∈ s.files) (hffam : f.familyId = fam)
    (hffol : f.folderId = some D._id)
    (hfa : f.assignedTo = some a) (hane : ¬ a = M._id)
    (hfup : ¬ f.uploadedBy = M._id)
    (hfswf : f.sharedWithFamily = false) (hfsw : f.sharedWith = some []) :
    f ∈ (getSharedFiles s M.clerkId (some D._id) none).map (fun e => e.file) ∧
    f ∈ (getSharedFiles s M.clerkId none none).map (fun e => e.file) := by
  have hDid : D._id ∈ sharedFolderIdList s M fam := by
    rw [sharedFolderIdList]
    apply List.mem_map_of_mem
    refine List.mem_filter.mpr ⟨?_, ?_⟩
    · rw [foldersByFamily]
      exact List.mem_filter.mpr ⟨hD, by simpa using hDfam⟩
    · have h1 : (D.createdBy == M._id) = false := by simpa using hDcb
      have h2 : (D.assignedTo == none) = false := by simpa using hDassigned
      simp [h1, h2, folderAssignedToStrictEq, hDshared]
  have hvis : sharedFileVisible M (sharedFolderIdList s M fam) f = true := by
    rw [sharedFileVisible]
    have h1 : (f.assignedTo == none) = false := by simp [hfa]
    have h2 : (f.assignedTo == some M._id) = false := by simp [hfa, hane]
    have h3 : (f.uploadedBy == M._id) = false := by simpa using hfup
    simp only [h1, h2, h3, hfswf, hfsw, hffol, Bool.false_eq_true, if_false,
      Option.getD_some, List.contains_nil]
    simpa using hDid
  constructor
  · exact file_mem_getSharedFiles s M.clerkId (some D._id) none M fam f hres hMfam
      (file_mem_scope_folder s fam D._id none f hfmem hffol hffam) hvis
  · exact file_mem_getSharedFiles s M.clerkId none none M fam f hres hMfam
      (file_mem_scope_all s fam f hfmem hffam) hvis

/-- Witness for the amended claim C3 at a concrete store. -/
theorem claim_C3_amended_witness :
    ({ _id := 1, name := "n", originalName := "n", url := "u", fileKey := "k",
       type := "t", size := 0, uploadedBy := 1, assignedTo := some 3, familyId := 1,
       folderId := some 1, tags := some [], sharedWithFamily := false,
       sharedWith := some [], createdAt := 5 } : File) ∈
      (getSharedFiles newFileStore2 "m" (some 1) none).map (fun e => e.file) :=
  (claim_C3_amended newFileStore2 1 memberU
    { baseFolder with _id := 1, assignedTo := some [3], sharedWithFamily := true }
    { _id := 1, name := "n", originalName := "n", url := "u", fileKey := "k",
      type := "t", size := 0, uploadedBy := 1, assignedTo := some 3, familyId := 1,
      folderId := some 1, tags := some [], sharedWithFamily := false,
      sharedWith := some [], createdAt := 5 }
    3 rfl rfl (by decide) rfl rfl (by decide) (by decide) (by decide) rfl rfl rfl
    (by decide) (by decide) rfl rfl).1

/-- Claim C6 (amended): `renameFile` succeeds exactly when the caller
resolves to a user and the target file exists and was uploaded by that
caller — there is no owner-role check — and on success exactly the file's
`name` field is patched (every other field and every other record is
unchanged) and the file key is returned. -/
theorem claim_C6_amended (s : Store) (c : ClerkId) (fid : FileId) (nm : String) :
    ((∃ r, renameFile s c fid nm = Except.ok r) ↔
      (∃ u f, findUserByClerk s c = some u ∧ dbGetFile s fid = some f ∧
        f.uploadedBy = u._id)) ∧
    (∀ u f, findUserByClerk s c = some u → dbGetFile s fid = some f →
      f.uploadedBy = u._id →
      renameFile s c fid nm =
        Except.ok ({ s with files := s.files.map (fun g =>
          if g._id = fid then { g with name := nm } else g) }, f.fileKey)) := by
  constructor
  · constructor
    · rintro ⟨r, hr⟩
      cases hu : findUserByClerk s c with
      | none => simp [renameFile, hu] at hr
      | some u =>
          cases hg : dbGetFile s fid with
          | none => simp [renameFile, hu, hg] at hr
          | some f =>
              by_cases hup : f.uploadedBy = u._id
              · exact ⟨u, f, rfl, rfl, hup⟩
              · simp [renameFile, hu, hg, hup] at hr
    · rintro ⟨u, f, hu, hg, hup⟩
      refine ⟨(patchFileRow s fid (fun g => { g with name := nm }), f.fileKey), ?_⟩
      simp [renameFile, hu, hg, hup]
  · intro u f hu hg hup
    have hres : renameFile s c fid nm =
        Except.ok (patchFileRow s fid (fun g => { g with name := nm }), f.fileKey) := by
      simp [renameFile, hu, hg, hup]
    exact hres

/-- Witness for the amended claim C6 at a concrete store. -/
theorem claim_C6_amended_witness :
    renameFile renameStore "m" 1 "new" =
      Except.ok ({ renameStore with files := renameStore.files.map (fun g =>
        if g._id = 1 then { g with name := "new" } else g) }, "k") :=
  (claim_C6_amended renameStore "m" 1 "new").2 memberU
    { baseFile with _id := 1, uploadedBy := 2, fileKey := "k" } rfl rfl rfl

/-! ### Bulk delete -/

theorem find?_key_filter_other {α κ : Type} [DecidableEq κ] [BEq κ] [LawfulBEq κ]
    (key : α → κ) (q : α → Bool) (l : List α) (j : κ)
    (hq : ∀ x, key x = j → q x = true) :
    (l.filter q).find? (fun y => key y == j) = l.find? (fun y => key y == j) := by
  induction l with
  | nil => rfl
  | cons hd t ih =>
      rw [List.filter_cons]
      by_cases hqh : q hd = true
      · rw [if_pos hqh]
        cases hbeq : (key hd == j) with
        | true => simp [List.find?_cons, hbeq]
        | false =>
            simp only [List.find?_cons, hbeq]
            exact ih
      · have hbeq : (key hd == j) = false := by
          cases hbeq : (key hd == j) with
          | true => exact absurd (hq hd (by simpa using hbeq)) hqh
          | false => rfl
        rw [if_neg hqh]
        rw [ih]
        rw [List.find?_cons, hbeq]

theorem dbGetFile_delete_ne (s : Store) (i j : FileId) (hne : ¬ j = i) :
    dbGetFile (deleteFileRow s i) j = dbGetFile s j := by
  rw [dbGetFile, dbGetFile, deleteFileRow]
  apply find?_key_filter_other
  intro x hx
  simp only [decide_eq_true_eq]
  intro hxi
  exact hne (hx ▸ hxi)

theorem bulk_keys_shift (uid : UserId) (ids : List FileId) :
    ∀ (st : Store) (ks : List String),
      (ids.foldl (fun acc fid =>
          match dbGetFile acc.1 fid with
          | some file =>
              if file.uploadedBy = uid then
                (deleteFileRow acc.1 fid, acc.2 ++ [file.fileKey])
              else acc
          | none => acc) (st, ks)).1
        = (ids.foldl (fun acc fid =>
            match dbGetFile acc.1 fid with
            | some file =>
                if file.uploadedBy = uid then
                  (deleteFileRow acc.1 fid, acc.2 ++ [file.fileKey])
                else acc
            | none => acc) (st, [])).1 ∧
      (ids.foldl (fun acc fid =>
          match dbGetFile acc.1 fid with
          | some file =>
              if file.uploadedBy = uid then
                (deleteFileRow acc.1 fid, acc.2 ++ [file.fileKey])
              else acc
          | none => acc) (st, ks)).2
        = ks ++ (ids.foldl (fun acc fid =>
            match dbGetFile acc.1 fid with
            | some file =>
                if file.uploadedBy = uid then
                  (deleteFileRow acc.1 fid, acc.2 ++ [file.fileKey])
                else acc
            | none => acc) (st, [])).2 := by
  induction ids with
  | nil => exact fun st ks => ⟨rfl, by simp⟩
  | cons i ids ih =>
      intro st ks
      rw [List.foldl_cons, List.foldl_cons]
      cases hgi : dbGetFile st i with
      | none =>
          simp only [hgi]
          exact ih st ks
      | some file =>
          by_cases hupl : file.uploadedBy = uid
          · simp only [hgi, if_pos hupl, List.nil_append]
            obtain ⟨e1, e2⟩ := ih (deleteFileRow st i) (ks ++ [file.fileKey])
            obtain ⟨e3, e4⟩ := ih (deleteFileRow st i) [file.fileKey]
            refine ⟨e1.trans e3.symm, ?_⟩
            rw [e2, e4]
            simp only [List.append_assoc]
          · simp only [hgi, if_neg hupl]
            exact ih st ks

theorem bulk_fold_spec (uid : UserId) (ids : List FileId) :
    ∀ (s : Store), (s.files.map (fun f => f._id)).Nodup → ids.Nodup →
      (ids.foldl (fun acc fid =>
          match dbGetFile acc.1 fid with
          | some file =>
              if file.uploadedBy = uid then
                (deleteFileRow acc.1 fid, acc.2 ++ [file.fileKey])
              else acc
          | none => acc) (s, [])).1.users = s.users ∧
      (ids.foldl (fun acc fid =>
          match dbGetFile acc.1 fid with
          | some file =>
              if file.uploadedBy = uid then
                (deleteFileRow acc.1 fid, acc.2 ++ [file.fileKey])
              else acc
          | none => acc) (s, [])).1.folders = s.folders ∧
      (ids.foldl (fun acc fid =>
          match dbGetFile acc.1 fid with
          | some file =>
              if file.uploadedBy = uid then
                (deleteFileRow acc.1 fid, acc.2 ++ [file.fileKey])
              else acc
          | none => acc) (s, [])).1.files
        = s.files.filter (fun f => ¬ (f._id ∈ ids ∧ f.uploadedBy = uid)) ∧
      (ids.foldl (fun acc fid =>
          match dbGetFile acc.1 fid with
          | some file =>
              if file.uploadedBy = uid then
                (deleteFileRow acc.1 fid, acc.2 ++ [file.fileKey])
              else acc
          | none => acc) (s, [])).2
        = ids.filterMap (fun i => (dbGetFile s i).bind
            (fun f => if f.uploadedBy = uid then some f.fileKey else none)) := by
  induction ids with
  | nil =>
      intro s _ _
      refine ⟨rfl, rfl, ?_, rfl⟩
      exact (List.filter_eq_self.mpr (fun a _ => by simp)).symm
  | cons i ids ih =>
      intro s hnd hids
      have hids' : ids.Nodup := (List.nodup_cons.mp hids).2
      have hinotin : i ∉ ids := (List.nodup_cons.mp hids).1
      rw [List.foldl_cons]
      cases hgi : dbGetFile s i with
      | none =>
          simp only [hgi]
          obtain ⟨h1, h2, h3, h4⟩ := ih s hnd hids'
          refine ⟨h1, h2, ?_, ?_⟩
          · rw [h3]
            apply List.filter_congr
            intro f hf
            have hfi : ¬ f._id = i := by
              have hno := List.find?_eq_none.mp (by rw [dbGetFile] at hgi; exact hgi) f hf
              simpa using hno
            have hiff : (f._id ∈ i :: ids ∧ f.uploadedBy = uid) ↔
                (f._id ∈ ids ∧ f.uploadedBy = uid) := by
              rw [List.mem_cons]
              constructor
              · rintro ⟨hm | hm, hupl⟩
                · exact absurd hm hfi
                · exact ⟨hm, hupl⟩
              · rintro ⟨hm, hupl⟩
                exact ⟨Or.inr hm, hupl⟩
            simp [hiff, hfi]
          · rw [h4]
            simp [List.filterMap_cons, hgi]
      | some file =>
          have hfmem := dbGetFile_mem hgi
          by_cases hupl : file.uploadedBy = uid
          · simp only [hgi, if_pos hupl, List.nil_append]
            obtain ⟨eS, eK⟩ := bulk_keys_shift uid ids (deleteFileRow s i) [file.fileKey]
            have hnd' : ((deleteFileRow s i).files.map (fun f => f._id)).Nodup := by
              have hsub : List.Sublist ((deleteFileRow s i).files.map (fun f => f._id))
                  (s.files.map (fun f => f._id)) :=
                List.Sublist.map _ (List.filter_sublist _)
              exact List.Nodup.sublist hsub hnd
            obtain ⟨h1, h2, h3, h4⟩ := ih (deleteFileRow s i) hnd' hids'
            rw [eS, eK, h1, h2, h3, h4]
            refine ⟨rfl, rfl, ?_, ?_⟩
            · show (s.files.filter (fun f => ¬ f._id = i)).filter
                  (fun f => ¬ (f._id ∈ ids ∧ f.uploadedBy = uid))
                = s.files.filter (fun f => ¬ (f._id ∈ i :: ids ∧ f.uploadedBy = uid))
              rw [List.filter_filter]
              apply List.filter_congr
              intro f hf
              by_cases hfi : f._id = i
              · have hfe : f = file :=
                  List.inj_on_of_nodup_map hnd hf hfmem.1 (by rw [hfi, hfmem.2])
                have hfu : f.uploadedBy = uid := by rw [hfe]; exact hupl
                simp [hfi, hfu]
              · have hiff : (f._id ∈ i :: ids ∧ f.uploadedBy = uid) ↔
                    (f._id ∈ ids ∧ f.uploadedBy = uid) := by
                  rw [List.mem_cons]
                  constructor
                  · rintro ⟨hm | hm, hupl2⟩
                    · exact absurd hm hfi
                    · exact ⟨hm, hupl2⟩
                  · rintro ⟨hm, hupl2⟩
                    exact ⟨Or.inr hm, hupl2⟩
                simp [hiff, hfi]
            · have hcong : ids.filterMap (fun j => (dbGetFile (deleteFileRow s i) j).bind
                  (fun f => if f.uploadedBy = uid then some f.fileKey else none))
                  = ids.filterMap (fun j => (dbGetFile s j).bind
                    (fun f => if f.uploadedBy = uid then some f.fileKey else none)) := by
                apply List.filterMap_congr
                intro j hj
                rw [dbGetFile_delete_ne s i j (fun hEq => hinotin (hEq ▸ hj))]
              rw [hcong]
              simp [List.filterMap_cons, hgi, hupl]
          · simp only [hgi, if_neg hupl]
            obtain ⟨h1, h2, h3, h4⟩ := ih s hnd hids'
            refine ⟨h1, h2, ?_, ?_⟩
            · rw [h3]
              apply List.filter_congr
              intro f hf
              by_cases hfi : f._id = i
              · have hfe : f = file :=
                  List.inj_on_of_nodup_map hnd hf hfmem.1 (by rw [hfi, hfmem.2])
                have hfu : ¬ f.uploadedBy = uid := by rw [hfe]; exact hupl
                simp [hfi, hfu, hinotin]
              · have hiff : (f._id ∈ i :: ids ∧ f.uploadedBy = uid) ↔
                    (f._id ∈ ids ∧ f.uploadedBy = uid) := by
                  rw [List.mem_cons]
                  constructor
                  · rintro ⟨hm | hm, hupl2⟩
                    · exact absurd hm hfi
                    · exact ⟨hm, hupl2⟩
                  · rintro ⟨hm, hupl2⟩
                    exact ⟨Or.inr hm, hupl2⟩
                simp [hiff, hfi]
            · rw [h4]
              simp [List.filterMap_cons, hgi, hupl]

/-- Claim C7: for an owner caller, `bulkDeleteFiles` never throws for
missing, cross-family or foreign-uploader ids; it deletes exactly the
listed files that exist and were uploaded by the caller, returns exactly
their storage keys in list order, and leaves every other file (and all
folders and users) unchanged. -/
theorem claim_C7_bulkDeleteFiles (s : Store) (c : ClerkId) (u : User) (fileIds : List FileId)
    (hnd : (s.files.map (fun f => f._id)).Nodup) (hids : fileIds.Nodup)
    (hu : findUserByClerk s c = some u) (hrole : u.role = some Role.owner) :
    ∃ s', bulkDeleteFiles s c fileIds = Except.ok (s',
        fileIds.filterMap (fun i => (dbGetFile s i).bind
          (fun f => if f.uploadedBy = u._id then some f.fileKey else none))) ∧
      s'.users = s.users ∧ s'.folders = s.folders ∧
      s'.files = s.files.filter (fun f => ¬ (f._id ∈ fileIds ∧ f.uploadedBy = u._id)) := by
  obtain ⟨h1, h2, h3, h4⟩ := bulk_fold_spec u._id fileIds s hnd hids
  have hres : bulkDeleteFiles s c fileIds
      = Except.ok (fileIds.foldl (fun acc fid =>
          match dbGetFile acc.1 fid with
          | some file =>
              if file.uploadedBy = u._id then
                (deleteFileRow acc.1 fid, acc.2 ++ [file.fileKey])
              else acc
          | none => acc) (s, [])) := by
    simp [bulkDeleteFiles, hu, hrole]
  refine ⟨(fileIds.foldl (fun acc fid =>
      match dbGetFile acc.1 fid with
      | some file =>
          if file.uploadedBy = u._id then
            (deleteFileRow acc.1 fid, acc.2 ++ [file.fileKey])
          else acc
      | none => acc) (s, [])).1, ?_, h1, h2, h3⟩
  rw [hres, ← h4]

/-- Witness for claim C7: one existing file id and one missing id. -/
theorem claim_C7_witness :
    ∃ s', bulkDeleteFiles cascadeStore "o" [1, 99] = Except.ok (s',
        [1, 99].filterMap (fun i => (dbGetFile cascadeStore i).bind
          (fun f => if f.uploadedBy = ownerU._id then some f.fileKey else none))) ∧
      s'.users = cascadeStore.users ∧ s'.folders = cascadeStore.folders ∧
      s'.files = cascadeStore.files.filter
        (fun f => ¬ (f._id ∈ [1, 99] ∧ f.uploadedBy = ownerU._id)) :=
  claim_C7_bulkDeleteFiles cascadeStore "o" ownerU [1, 99] (by decide) (by decide) rfl rfl

/-! ### Freshly created items and sharing -/

theorem getSharedFolders_visible (s : Store) (c : ClerkId) (scope : Option FolderId)
    (e : SharedFolderInfo) (he : e ∈ getSharedFolders s c scope) :
    ∃ user familyId, findUserByClerk s c = some user ∧ user.familyId = some familyId ∧
      sharedFolderVisible user familyId e.folder = true := by
  cases hu : findUserByClerk s c with
  | none => simp [getSharedFolders, hu] at he
  | some user =>
      cases hfam : user.familyId with
      | none => simp [getSharedFolders, hu, hfam] at he
      | some familyId =>
          simp only [getSharedFolders, hu, hfam] at he
          rw [mem_sortByName] at he
          obtain ⟨g, hgmem, hge⟩ := List.mem_map.mp he
          obtain ⟨_, hvis⟩ := List.mem_filter.mp hgmem
          subst hge
          exact ⟨user, familyId, rfl, hfam, hvis⟩

theorem sharedFolderVisible_unshared (u : User) (fam : FamilyId) (g : Folder)
    (h1 : g.sharedWithFamily = false) (h2 : g.sharedWith = some []) :
    sharedFolderVisible u fam g = false := by
  rw [sharedFolderVisible]
  simp [h1, h2]

theorem sharedFileVisible_folder_only (u : User) (ids : List FolderId) (f : File)
    (h1 : f.sharedWithFamily = false) (h2 : f.sharedWith = some [])
    (hvis : sharedFileVisible u ids f = true) :
    ∃ d, f.folderId = some d ∧ d ∈ ids := by
  rw [sharedFileVisible] at hvis
  rw [h1, h2] at hvis
  simp only [Option.getD_some, List.contains_nil, Bool.false_eq_true, if_false] at hvis
  split_ifs at hvis
  cases hf : f.folderId with
  | none => rw [hf] at hvis; cases hvis
  | some d =>
      rw [hf] at hvis
      exact ⟨d, rfl, by simpa using hvis⟩

/-- Claim C9 (amended): every folder and file created by
`createFolder`/`createFile` starts with `sharedWithFamily = false` and an
empty `sharedWith`, regardless of arguments; a newly created folder
consequently appears in nobody's `getSharedFolders` result, and a newly
created file can appear in a `getSharedFiles` result only through the
sharing of its containing folder (membership of that folder in the caller's
`sharedFolderIdList`), never through its own sharing fields. -/
theorem claim_C9_amended (s : Store) (c : ClerkId) :
    (∀ name pfid assigned now s' nid,
      createFolder s c name pfid assigned now = Except.ok (s', nid) →
      ∃ u fam rec, findUserByClerk s c = some u ∧ u.familyId = some fam ∧
        s'.folders = s.folders ++ [rec] ∧ rec._id = nid ∧
        rec.sharedWithFamily = false ∧ rec.sharedWith = some [] ∧
        (∀ c' scope, ¬ rec ∈ (getSharedFolders s' c' scope).map (fun e => e.folder))) ∧
    (∀ nm onm url key ty sz ass tags fol now s' nid,
      createFile s c nm onm url key ty sz ass tags fol now = Except.ok (s', nid) →
      ∃ rec, s'.files = s.files ++ [rec] ∧ rec._id = nid ∧
        rec.sharedWithFamily = false ∧ rec.sharedWith = some [] ∧
        (∀ c' folScope ro e, e ∈ getSharedFiles s' c' folScope ro → e.file = rec →
          ∃ u' fam' d, findUserByClerk s' c' = some u' ∧ u'.familyId = some fam' ∧
            rec.folderId = some d ∧ d ∈ sharedFolderIdList s' u' fam')) := by
  constructor
  · intro name pfid assigned now s' nid hcr
    cases hu : findUserByClerk s c with
    | none => simp [createFolder, hu] at hcr
    | some u =>
        cases hfam : u.familyId with
        | none => simp [createFolder, hu, hfam] at hcr
        | some fam =>
            by_cases hrole : u.role = some Role.owner
            · revert hcr
              by_cases hpok : (match pfid with
                | none => true
                | some pid =>
                    match dbGetFolder s pid with
                    | none => false
                    | some parent => parent.familyId == fam) = true
              · intro hcr
                have hres : createFolder s c name pfid assigned now =
                    Except.ok ({ s with folders := s.folders ++
                      [{ _id := freshFolderId s, name := name, parentFolderId := pfid,
                         createdBy := u._id, assignedTo := normalizeAssigned assigned,
                         familyId := fam, sharedWithFamily := false,
                         sharedWith := some [], createdAt := now }] },
                      freshFolderId s) := by
                  simp only [createFolder, hu, hfam]
                  rw [if_neg (not_not_intro hrole), if_neg (not_not_intro hpok)]
                obtain ⟨hs', hnid⟩ := Prod.mk.inj (Except.ok.inj (hres.symm.trans hcr))
                subst hs'
                subst hnid
                refine ⟨u, fam, _, rfl, hfam, rfl, rfl, rfl, rfl, ?_⟩
                intro c' scope hmem
                obtain ⟨e, he, hef⟩ := List.mem_map.mp hmem
                obtain ⟨u', fam', _, _, hvis⟩ := getSharedFolders_visible _ c' scope e he
                rw [hef] at hvis
                rw [sharedFolderVisible_unshared u' fam' _ rfl rfl] at hvis
                cases hvis
              · intro hcr
                have hres : createFolder s c name pfid assigned now =
                    Except.error "Parent folder not found" := by
                  simp only [createFolder, hu, hfam]
                  rw [if_neg (not_not_intro hrole), if_pos hpok]
                rw [hres] at hcr
                cases hcr
            · have hres : createFolder s c name pfid assigned now =
                  Except.error "Only family owners can create folders" := by
                simp only [createFolder, hu, hfam]
                rw [if_pos hrole]
              rw [hres] at hcr
              cases hcr
  · intro nm onm url key ty sz ass tags fol now s' nid hcr
    cases hu : findUserByClerk s c with
    | none => simp [createFile, hu] at hcr
    | some u =>
        cases hfam : u.familyId with
        | none => simp [createFile, hu, hfam] at hcr
        | some fam =>
            by_cases hrole : u.role = some Role.owner
            · revert hcr
              by_cases hpok : (match fol with
                | none => true
                | some fid =>
                    match dbGetFolder s fid with
                    | none => false
                    | some folder => folder.familyId == fam) = true
              · intro hcr
                have hres : createFile s c nm onm url key ty sz ass tags fol now =
                    Except.ok ({ s with files := s.files ++
                      [{ _id := freshFileId s, name := nm, originalName := onm, url := url,
                         fileKey := key, type := ty, size := sz, uploadedBy := u._id,
                         assignedTo := ass, familyId := fam, folderId := fol,
                         tags := some (tags.getD []), sharedWithFamily := false,
                         sharedWith := some [], createdAt := now }] },
                      freshFileId s) := by
                  simp only [createFile, hu, hfam]
                  rw [if_neg (not_not_intro hrole), if_neg (not_not_intro hpok)]
                obtain ⟨hs', hnid⟩ := Prod.mk.inj (Except.ok.inj (hres.symm.trans hcr))
                subst hs'
                subst hnid
                refine ⟨_, rfl, rfl, rfl, rfl, ?_⟩
                intro c' folScope ro e he hef
                obtain ⟨u', fam', hre, hfam', _, hvis⟩ :=
                  getSharedFiles_visible _ c' folScope ro e he
                rw [hef] at hvis
                obtain ⟨d, hd, hdin⟩ := sharedFileVisible_folder_only u' _ _ rfl rfl hvis
                exact ⟨u', fam', d, hre, hfam', hd, hdin⟩
              · intro hcr
                have hres : createFile s c nm onm url key ty sz ass tags fol now =
                    Except.error "Folder not found" := by
                  simp only [createFile, hu, hfam]
                  rw [if_neg (not_not_intro hrole), if_pos hpok]
                rw [hres] at hcr
                cases hcr
            · have hres : createFile s c nm onm url key ty sz ass tags fol now =
                  Except.error "Only family owners can upload files" := by
                simp only [createFile, hu, hfam]
                rw [if_pos hrole]
              rw [hres] at hcr
              cases hcr

/-- Witness for the amended claim C9: the concrete `createFile` run into the
shared folder of `newFileStore`. -/
theorem claim_C9_amended_witness :
    ∃ rec, newFileStore2.files = newFileStore.files ++ [rec] ∧ rec._id = 1 ∧
      rec.sharedWithFamily = false ∧ rec.sharedWith = some [] ∧
      (∀ c' folScope ro e, e ∈ getSharedFiles newFileStore2 c' folScope ro → e.file = rec →
        ∃ u' fam' d, findUserByClerk newFileStore2 c' = some u' ∧ u'.familyId = some fam' ∧
          rec.folderId = some d ∧ d ∈ sharedFolderIdList newFileStore2 u' fam') :=
  (claim_C9_amended newFileStore "o").2 "n" "n" "u" "k" "t" 0 (some 3) none (some 1) 5
    newFileStore2 1 rfl

/-- Claim C10: `updateFileSharing` and `updateFolderSharing` never inspect
the ids in the `sharedWith` argument — for every authorized caller (the
code's own test: uploader-or-assignee for files, creator-or-listed-assignee
for folders) and every list of user ids whatsoever, including ids from
other families or no family, the mutation succeeds and patches the list in
verbatim. -/
theorem claim_C10_sharing_unvalidated (s : Store) (c : ClerkId) (u : User)
    (hu : findUserByClerk s c = some u) :
    (∀ fid f swf (lst : List UserId), dbGetFile s fid = some f →
      (f.uploadedBy = u._id ∨ f.assignedTo = some u._id) →
      updateFileSharing s c fid swf lst =
        Except.ok (patchFileRow s fid (fun g =>
          { g with sharedWithFamily := swf, sharedWith := some lst }))) ∧
    (∀ fid g swf (lst : List UserId), dbGetFolder s fid = some g →
      (g.createdBy = u._id ∨ (g.assignedTo.getD []).contains u._id) →
      updateFolderSharing s c fid swf lst =
        Except.ok (patchFolderRow s fid (fun g =>
          { g with sharedWithFamily := swf, sharedWith := some lst }))) := by
  constructor
  · intro fid f swf lst hget hcan
    simp only [updateFileSharing, hu, hget]
    rw [if_pos hcan]
  · intro fid g swf lst hget hcan
    simp only [updateFolderSharing, hu, hget]
    rw [if_pos hcan]

/-- Witness for claim C10: a `sharedWith` list naming a user id that exists
in no family is stored verbatim. -/
theorem claim_C10_witness :
    updateFileSharing renameStore "m" 1 true [999] =
      Except.ok (patchFileRow renameStore 1 (fun g =>
        { g with sharedWithFamily := true, sharedWith := some [999] })) :=
  (claim_C10_sharing_unvalidated renameStore "m" memberU rfl).1 1
    { baseFile with _id := 1, uploadedBy := 2, fileKey := "k" } true [999] rfl (Or.inl rfl)
